import Mathlib

/-!
Verification of the resumelyze scoring pipeline (ml-server/app).

Python strings are embedded as `List Char`; each Python function of the
pipeline is translated into an executable Lean definition over that
representation.  The regular expressions used by the source are embedded
through a small backtracking matcher (`RE`, `reMatch`) whose result list is
ordered by the backtracking priority of the Python `re` engine, so that
`head?` of the result list is the match `re.search`/`re.findall` would
produce, and list non-emptiness is match existence.
-/

namespace Resumelyze

/-- Python strings, embedded as lists of characters. -/
abbrev Str := List Char

/-- The whitespace characters recognized by Python's `str.strip` and the
regex class `\s` (ASCII range, which is the range exercised here). -/
def pyIsSpace (c : Char) : Bool :=
  c == ' ' || c == '\t' || c == '\n' || c == '\x0d' || c == '\x0b' || c == '\x0c'

/-- `str.strip()` on the left: drop leading whitespace. -/
def pyLStrip (s : Str) : Str := s.dropWhile pyIsSpace

/-- `str.strip()` on the right: drop trailing whitespace. -/
def pyRStrip (s : Str) : Str := (s.reverse.dropWhile pyIsSpace).reverse

/-- Python `str.strip()`. -/
def pyStrip (s : Str) : Str := pyRStrip (pyLStrip s)

/-- Python `text.split("\n")`: split at every newline, keeping empty pieces. -/
def splitNl : Str → List Str
  | [] => [[]]
  | c :: cs =>
    if c = '\n' then [] :: splitNl cs
    else
      match splitNl cs with
      | h :: t => (c :: h) :: t
      | [] => [[c]]

/-- Python `"\n".join(lines)`. -/
def joinNl (ls : List Str) : Str := List.intercalate ['\n'] ls

/-- The ASCII lowercase table used to embed Python `str.lower()` (the inputs
exercised by the pipeline are ASCII). -/
def lowerTable : List (Char × Char) :=
  [('A', 'a'), ('B', 'b'), ('C', 'c'), ('D', 'd'), ('E', 'e'), ('F', 'f'),
   ('G', 'g'), ('H', 'h'), ('I', 'i'), ('J', 'j'), ('K', 'k'), ('L', 'l'),
   ('M', 'm'), ('N', 'n'), ('O', 'o'), ('P', 'p'), ('Q', 'q'), ('R', 'r'),
   ('S', 's'), ('T', 't'), ('U', 'u'), ('V', 'v'), ('W', 'w'), ('X', 'x'),
   ('Y', 'y'), ('Z', 'z')]

/-- Lowercase one character. -/
def asciiLower (c : Char) : Char :=
  match lowerTable.lookup c with
  | some d => d
  | none => c

/-- Python `str.lower()`. -/
def pyLower (s : Str) : Str := s.map asciiLower

/-- Python substring test `needle in hay`. -/
def pyContains (hay needle : Str) : Bool :=
  hay.tails.any (fun t => needle.isPrefixOf t)

/-- Regex word characters `\w` (ASCII range). -/
def wordChar (c : Char) : Bool := c.isAlpha || c.isDigit || c == '_'

/-- Does `\b` hold between a previous character and a next character
(`none` standing for the ends of the haystack)? -/
def wbHolds (prev next : Option Char) : Bool :=
  (match prev with | some c => wordChar c | none => false) !=
  (match next with | some c => wordChar c | none => false)

/-- Embedded regular expressions: exactly the constructs used by the
patterns of the source (`re` module). -/
inductive RE where
  | cls (p : Char → Bool)
  | eps
  | seq (a b : RE)
  | alt (a b : RE)
  | star (r : RE)
  | wb
  | bos
  | bol
deriving Inhabited

/-- One match state: consumed characters, character preceding the rest,
and the remaining haystack. -/
abbrev MState := Str × Option Char × Str

/-- Iterate a matching step zero or more times (greedy: longer iterations
first, matching the `re` engine's backtracking order); the fuel bounds the
number of iterations and every iteration must consume at least one
character, as `re` requires progress in a repetition. -/
def iterStar (step : Option Char → Str → List MState) :
    Nat → Option Char → Str → List MState
  | 0, prev, s => [([], prev, s)]
  | n + 1, prev, s =>
    ((step prev s).filter (fun t => ¬ t.1.isEmpty)).flatMap
      (fun t => (iterStar step n t.2.1 t.2.2).map
        (fun u => (t.1 ++ u.1, u.2.1, u.2.2))) ++ [([], prev, s)]

/-- All ways a regex can match a prefix of `s` (given the character just
before `s`), in the `re` engine's backtracking priority order. -/
def reMatch : RE → Option Char → Str → List MState
  | .cls _, _, [] => []
  | .cls p, _, c :: rest => if p c then [([c], some c, rest)] else []
  | .eps, prev, s => [([], prev, s)]
  | .seq a b, prev, s =>
    (reMatch a prev s).flatMap
      (fun t => (reMatch b t.2.1 t.2.2).map
        (fun u => (t.1 ++ u.1, u.2.1, u.2.2)))
  | .alt a b, prev, s => reMatch a prev s ++ reMatch b prev s
  | .star r, prev, s => iterStar (reMatch r) s.length prev s
  | .wb, prev, s => if wbHolds prev s.head? then [([], prev, s)] else []
  | .bos, prev, s => if prev.isNone then [([], prev, s)] else []
  | .bol, prev, s =>
    if prev.isNone || prev == some '\n' then [([], prev, s)] else []

/-- `r+` as `r r*`. -/
def rePlus (r : RE) : RE := .seq r (.star r)

/-- `r?` (greedy). -/
def reOpt (r : RE) : RE := .alt r .eps

/-- `r{0,n}` (greedy). -/
def repUpTo : Nat → RE → RE
  | 0, _ => .eps
  | n + 1, r => .alt (.seq r (repUpTo n r)) .eps

/-- `r{1,n}` (greedy). -/
def rep1To (n : Nat) (r : RE) : RE := .seq r (repUpTo (n - 1) r)

/-- A literal, case-sensitively. -/
def reLit (w : Str) : RE := w.foldr (fun c acc => .seq (.cls (fun x => x == c)) acc) .eps

/-- A literal under `re.I`. -/
def reLitCI (w : Str) : RE :=
  w.foldr (fun c acc => .seq (.cls (fun x => asciiLower x == asciiLower c)) acc) .eps

/-- Does the pattern match starting somewhere in `s` (Python `pattern.search`)?
Implemented by trying every start position, tracking the preceding character
for the `\b`, `^` assertions. -/
def searchFrom (re : RE) : Option Char → Str → Bool
  | prev, [] => ¬ (reMatch re prev []).isEmpty
  | prev, c :: rest =>
    (¬ (reMatch re prev (c :: rest)).isEmpty) || searchFrom re (some c) rest

/-- Python `pattern.search(s)` as a Boolean. -/
def pySearch (re : RE) (s : Str) : Bool := searchFrom re none s

/-- Python `pattern.findall(s)` (for the group-free patterns used by this
code base, whose matches are never empty): scan left to right, at each
position take the engine's first match if any, and continue after it. -/
def findallFrom (re : RE) : Nat → Option Char → Str → List Str
  | 0, _, _ => []
  | fuel + 1, prev, s =>
    match (reMatch re prev s).head? with
    | some t =>
      if t.1.isEmpty then
        match s with
        | [] => []
        | c :: rest => findallFrom re fuel (some c) rest
      else t.1 :: findallFrom re fuel t.2.1 t.2.2
    | none =>
      match s with
      | [] => []
      | c :: rest => findallFrom re fuel (some c) rest

/-- Python `pattern.findall(s)`. -/
def pyFindall (re : RE) (s : Str) : List Str := findallFrom re (s.length + 1) none s

/-- Python 3 `round` to an integer: round half to even (banker's rounding). -/
def pyRound (q : ℚ) : ℤ :=
  if q - ⌊q⌋ < 1 / 2 then ⌊q⌋
  else if (1 : ℚ) / 2 < q - ⌊q⌋ then ⌊q⌋ + 1
  else if Even ⌊q⌋ then ⌊q⌋ else ⌊q⌋ + 1

/-- The character class `[a-zA-Z+#.]` of the tokenizer. -/
def tokChar (c : Char) : Bool := c.isAlpha || c == '+' || c == '#' || c == '.'

/-- The tokenizer pattern from nlp_engine.py:
`\b[a-zA-Z][a-zA-Z+#.]{1,30}\b`. -/
def tokenRE : RE :=
  .seq .wb (.seq (.cls Char.isAlpha) (.seq (rep1To 30 (.cls tokChar)) .wb))

/-- `tokenize` from nlp_engine.py:
`re.findall(r"\b[a-zA-Z][a-zA-Z+#.]{1,30}\b", text.lower())`. -/
def tokenize (text : Str) : List Str := pyFindall tokenRE (pyLower text)

/-- `STOP_WORDS` from nlp_engine.py. -/
def STOP_WORDS : List Str :=
  (["a", "an", "and", "are", "as", "at", "be", "but", "by", "for", "from",
    "had", "has", "have", "he", "her", "his", "how", "i", "if", "in", "into",
    "is", "it", "its", "just", "me", "more", "my", "no", "nor", "not", "of",
    "on", "or", "our", "out", "own", "per", "she", "so", "some", "than",
    "that", "the", "their", "them", "then", "there", "these", "they", "this",
    "those", "through", "to", "too", "under", "up", "very", "was", "we",
    "were", "what", "when", "where", "which", "while", "who", "whom", "why",
    "will", "with", "would", "you", "your", "also", "can", "could", "do",
    "does", "may", "might", "shall", "should", "such", "about", "above",
    "after", "again", "all", "already", "among", "any", "because", "been",
    "before", "below", "between", "both", "did", "doing", "each", "few",
    "get", "got", "here", "new", "now", "only", "other", "over", "same",
    "still", "use", "used", "using", "well", "work", "working", "etc",
    "one", "two", "first", "last", "many", "much", "must", "need", "since"]
    : List String).map String.toList

/-- The stop-word / length filter shared by `extract_keywords` and
`extract_ngrams`: `t not in STOP_WORDS and len(t) > 2`. -/
def kwFilter (tokens : List Str) : List Str :=
  tokens.filter (fun t => !STOP_WORDS.contains t && decide (2 < t.length))

/-- Number of occurrences of `x`, for `collections.Counter`. -/
def countOcc (l : List Str) (x : Str) : Nat := l.count x

/-- The distinct elements of a list in first-occurrence order (the key
order of a `collections.Counter` / `dict.fromkeys`), with an accumulator of
already-seen keys. -/
def dedupFirstAux (seen : List Str) : List Str → List Str
  | [] => []
  | x :: xs =>
    if seen.contains x then dedupFirstAux seen xs
    else x :: dedupFirstAux (x :: seen) xs

/-- The distinct elements of a list in first-occurrence order. -/
def dedupFirst (l : List Str) : List Str := dedupFirstAux [] l

/-- Insert into a list sorted by descending count, after all entries of
count at least as large (so that earlier-occurring keys of equal count
stay first, as Python's stable sort does). -/
def insertByCount (counts : Str → Nat) (x : Str) : List Str → List Str
  | [] => [x]
  | y :: ys =>
    if counts x ≤ counts y then y :: insertByCount counts x ys else x :: y :: ys

/-- `Counter(l).most_common(n)`: keys ranked by descending count, ties kept
in first-occurrence order, truncated to `n`. -/
def most_common (l : List Str) (n : Nat) : List Str :=
  ((dedupFirst l).foldl (fun acc x => insertByCount (countOcc l) x acc) []).take n

/-- `extract_keywords` from nlp_engine.py. -/
def extract_keywords (text : Str) (top_n : Nat) : List Str :=
  most_common (kwFilter (tokenize text)) top_n

/-- `extract_ngrams` from nlp_engine.py (the `" ".join` of each window of
`n` consecutive filtered tokens; the range is empty when fewer than `n`
tokens remain, as `range(len(filtered) - n + 1)` is then empty). -/
def extract_ngrams (text : Str) (n : Nat) (top_k : Nat) : List Str :=
  let filtered := kwFilter (tokenize text)
  let ngrams := (List.range (filtered.length + 1 - n)).map
    (fun i => List.intercalate [' '] ((filtered.drop i).take n))
  most_common ngrams top_k

/-- The shared shape of the two partitioning loops of the source
(`compute_keyword_overlap`, `compute_keyword_semantic_matches`): walk the
keywords appending each to the first list when the test holds and to the
second otherwise. -/
def partitionFold (p : Str → Bool) (kws : List Str) : List Str × List Str :=
  kws.foldl
    (fun fm kw => if p kw then (fm.1 ++ [kw], fm.2) else (fm.1, fm.2 ++ [kw]))
    ([], [])

/-- `compute_keyword_overlap` from nlp_engine.py: the loop appending each
keyword to `found` when `kw.lower() in resume_lower` and to `missing`
otherwise, and `density = len(found) / max(len(jd_keywords), 1)`. -/
def compute_keyword_overlap (resume_text : Str) (jd_keywords : List Str) :
    List Str × List Str × ℚ :=
  let fm := partitionFold (fun kw => pyContains (pyLower resume_text) (pyLower kw)) jd_keywords
  (fm.1, fm.2, (fm.1.length : ℚ) / (max jd_keywords.length 1 : ℚ))

/-- The sentence delimiters of `compute_readability`: the class `[.!?]`. -/
def isSentDelim (c : Char) : Bool := c == '.' || c == '!' || c == '?'

/-- Python `re.split(r"[.!?]+", text)`: split at maximal delimiter runs.
The flag records whether the scan is inside a delimiter run (in which case
further delimiters extend the run instead of cutting again). -/
def splitSentAux : Bool → Str → List Str
  | _, [] => [[]]
  | inRun, c :: cs =>
    if isSentDelim c then
      if inRun then splitSentAux true cs
      else [] :: splitSentAux true cs
    else
      match splitSentAux false cs with
      | h :: t => (c :: h) :: t
      | [] => [[c]]

/-- Python `re.split(r"[.!?]+", text)`. -/
def splitSent (s : Str) : List Str := splitSentAux false s

/-- `compute_readability` from nlp_engine.py. -/
def compute_readability (text : Str) : ℚ :=
  let sentences := ((splitSent text).map pyStrip).filter (fun s => decide (5 < s.length))
  let words := tokenize text
  if sentences.isEmpty || words.isEmpty then 50
  else
    let avg_sentence_len : ℚ := (words.length : ℚ) / (sentences.length : ℚ)
    let long_words : ℚ := ((words.filter (fun w => decide (8 < w.length))).length : ℚ)
    let long_pct : ℚ := if words.isEmpty then 0 else long_words / (words.length : ℚ)
    let sentence_score : ℚ := max 0 (100 - |avg_sentence_len - 16| * 4)
    let word_score : ℚ := max 0 (100 - long_pct * 200)
    let length_score : ℚ := min 100 ((words.length : ℚ) / 3)
    min 100 ((pyRound (sentence_score * 0.4 + word_score * 0.3 + length_score * 0.3) : ℤ) : ℚ)

/-- String literal to embedded string. -/
def str (s : String) : Str := s.toList

/-- Python `re.match(pattern, s)` as a Boolean: anchored at the start. -/
def pyMatch (re : RE) (s : Str) : Bool := ¬ (reMatch re none s).isEmpty

/-- `\s+`. -/
def reSpace1 : RE := rePlus (.cls pyIsSpace)

/-- A case-insensitive literal followed by `\b`. -/
def wordB (w : String) : RE := .seq (reLitCI (str w)) .wb

/-- A case-insensitive literal, an optional `s`, then `\b` (for `words?\b`). -/
def wordSB (w : String) : RE :=
  .seq (reLitCI (str w)) (.seq (reOpt (reLitCI (str "s"))) .wb)

/-- `(?:word\s+)?` as used by several section header patterns. -/
def optPrefix (w : String) : RE := reOpt (.seq (reLitCI (str w)) reSpace1)

/-- A case-insensitive literal with an optional trailing `s` (no `\b`). -/
def wordOptS (w : String) : RE := .seq (reLitCI (str w)) (reOpt (reLitCI (str "s")))

/-- First-priority alternation of a list of patterns. -/
def altList (rs : List RE) : RE := rs.foldr .alt (.cls (fun _ => false))

/-- `SECTION_PATTERNS` from nlp_engine.py, in source order; all patterns are
compiled with `re.I` and all start with `^`, embedded as `.bos` (the source
uses `pattern.search` without `re.M`, so `^` only ever matches at position 0). -/
def SECTION_PATTERNS : List (RE × String) :=
  [ (.seq .bos (.seq (optPrefix "professional") (wordB "summary")), "summary"),
    (.seq .bos (.seq (optPrefix "career") (wordB "objective")), "summary"),
    (.seq .bos (.seq (.alt (.seq (reLitCI (str "about")) (.seq reSpace1 (reLitCI (str "me"))))
        (reLitCI (str "profile"))) .wb), "summary"),
    (.seq .bos (.seq (optPrefix "technical") (wordSB "skill")), "skills"),
    (.seq .bos (.seq (optPrefix "core") (reLitCI (str "competenc"))), "skills"),
    (.seq .bos (reLitCI (str "technolog")), "skills"),
    (.seq .bos (.seq (optPrefix "work") (wordB "experience")), "experience"),
    (.seq .bos (.seq (optPrefix "professional") (wordB "experience")), "experience"),
    (.seq .bos (wordB "employment"), "experience"),
    (.seq .bos (.seq (optPrefix "work") (wordB "history")), "experience"),
    (.seq .bos (wordB "education"), "education"),
    (.seq .bos (wordB "academic"), "education"),
    (.seq .bos (wordSB "qualification"), "education"),
    (.seq .bos (wordSB "project"), "projects"),
    (.seq .bos (.seq (.alt (reLitCI (str "personal")) (reLitCI (str "key")))
        (.seq reSpace1 (wordSB "project"))), "projects"),
    (.seq .bos (wordSB "certification"), "certifications"),
    (.seq .bos (.seq (.alt (wordOptS "license") (wordOptS "credential")) .wb), "certifications"),
    (.seq .bos (wordSB "achievement"), "achievements"),
    (.seq .bos (wordSB "award"), "achievements"),
    (.seq .bos (wordSB "language"), "languages"),
    (.seq .bos (wordSB "interest"), "interests"),
    (.seq .bos (.seq (reLitCI (str "hobbie")) (.seq (reOpt (reLitCI (str "s"))) .wb)), "interests"),
    (.seq .bos (reLitCI (str "volunteer")), "volunteer"),
    (.seq .bos (wordSB "publication"), "publications"),
    (.seq .bos (wordSB "reference"), "references") ]

/-- The header test of `detect_sections`: a stripped line is a section header
when it is shorter than 60 characters and some pattern of `SECTION_PATTERNS`
matches it; the first matching pattern's section name wins. -/
def hdrOf (stripped : Str) : Option String :=
  if stripped.length < 60 then
    SECTION_PATTERNS.findSome? (fun pr => if pySearch pr.1 stripped then some pr.2 else none)
  else none

/-- Python-dict insertion: replace in place if the key exists (keeping its
original position, as `dict` does), else append. -/
def dictInsert : List (String × Str) → String → Str → List (String × Str)
  | [], k, v => [(k, v)]
  | (k', v') :: rest, k, v =>
    if k' = k then (k', v) :: rest else (k', v') :: dictInsert rest k v

/-- Flush accumulated lines into the sections dict, dropping the flush when
the stripped joined content is empty (`if content:` in the source; an empty
accumulator also joins and strips to empty, matching `if current_lines:`). -/
def flushInto (secs : List (String × Str)) (cur : String) (acc : List Str) :
    List (String × Str) :=
  let content := pyStrip (joinNl acc)
  if content.isEmpty then secs else dictInsert secs cur content

/-- The line loop of `detect_sections`, parameterized by the header
classifier applied to each stripped line. -/
def detectAux (hd : Str → Option String) :
    List (String × Str) → String → List Str → List Str → List (String × Str)
  | secs, cur, acc, [] => flushInto secs cur acc
  | secs, cur, acc, line :: rest =>
    if (pyStrip line).isEmpty then detectAux hd secs cur (acc ++ [[]]) rest
    else
      match hd (pyStrip line) with
      | some name => detectAux hd (flushInto secs cur acc) name [] rest
      | none => detectAux hd secs cur (acc ++ [line]) rest

/-- `detect_sections` from nlp_engine.py: walk the lines with a current
section cursor starting at "header", flushing the accumulated lines at each
recognized header, and flushing the remainder at the end. -/
def detect_sections (text : Str) : List (String × Str) :=
  detectAux hdrOf [] "header" [] (splitNl text)

/-- The bullet glyph class of `BULLET_PATTERN` in nlp_engine.py. -/
def bulletGlyph (c : Char) : Bool :=
  c == '•' || c == '-' || c == '*' || c == '●' || c == '○' ||
  c == '‣' || c == '⁃' || c == '►' || c == '▪' || c == '▸'

/-- `\d+`. -/
def reDigits : RE := rePlus (.cls Char.isDigit)

/-- `BULLET_PATTERN` from nlp_engine.py: `^[\s]*[•-*...]\s*` with `re.M`. -/
def BULLET_RE : RE :=
  .seq .bol (.seq (.star (.cls pyIsSpace)) (.seq (.cls bulletGlyph) (.star (.cls pyIsSpace))))

/-- `NUMBERED_PATTERN` from nlp_engine.py: `^[\s]*\d+[.)]\s+` with `re.M`. -/
def NUMBERED_RE : RE :=
  .seq .bol (.seq (.star (.cls pyIsSpace))
    (.seq reDigits (.seq (.cls (fun c => c == '.' || c == ')')) reSpace1)))

/-- `count_bullet_points` from nlp_engine.py: bullet matches plus numbered
matches. -/
def count_bullet_points (text : Str) : Nat :=
  (pyFindall BULLET_RE text).length + (pyFindall NUMBERED_RE text).length

/-- Metric pattern 1 of quantifier.py: `\b\d+[%]\b`. -/
def METRIC1 : RE := .seq .wb (.seq reDigits (.seq (.cls (fun c => c == '%')) .wb))

/-- Metric pattern 2: `\$[\d,]+(?:\.\d+)?(?:\s*[KMBkmb])?\b`. -/
def METRIC2 : RE :=
  .seq (.cls (fun c => c == '$'))
    (.seq (rePlus (.cls (fun c => c.isDigit || c == ',')))
      (.seq (reOpt (.seq (.cls (fun c => c == '.')) reDigits))
        (.seq (reOpt (.seq (.star (.cls pyIsSpace))
          (.cls (fun c => c == 'K' || c == 'M' || c == 'B' || c == 'k' || c == 'm' || c == 'b'))))
          .wb)))

/-- Metric pattern 3: `\b\d+(?:\.\d+)?x\b` with `re.I`. -/
def METRIC3 : RE :=
  .seq .wb (.seq reDigits (.seq (reOpt (.seq (.cls (fun c => c == '.')) reDigits))
    (.seq (.cls (fun c => asciiLower c == 'x')) .wb)))

/-- Metric pattern 4: `\b\d+\+?\s*(?:users?|customers?|clients?|employees?|people|engineers?|developers?|members?)\b` with `re.I`. -/
def METRIC4 : RE :=
  .seq .wb (.seq reDigits (.seq (reOpt (.cls (fun c => c == '+')))
    (.seq (.star (.cls pyIsSpace))
      (.seq (altList [wordOptS "user", wordOptS "customer", wordOptS "client",
        wordOptS "employee", reLitCI (str "people"), wordOptS "engineer",
        wordOptS "developer", wordOptS "member"]) .wb))))

/-- Metric pattern 5: `\b\d+\+?\s*(?:projects?|applications?|features?|products?|services?|systems?)\b` with `re.I`. -/
def METRIC5 : RE :=
  .seq .wb (.seq reDigits (.seq (reOpt (.cls (fun c => c == '+')))
    (.seq (.star (.cls pyIsSpace))
      (.seq (altList [wordOptS "project", wordOptS "application", wordOptS "feature",
        wordOptS "product", wordOptS "service", wordOptS "system"]) .wb))))

/-- Metric pattern 6: `\b\d+\+?\s*(?:years?|months?|weeks?|days?|hours?)\b` with `re.I`. -/
def METRIC6 : RE :=
  .seq .wb (.seq reDigits (.seq (reOpt (.cls (fun c => c == '+')))
    (.seq (.star (.cls pyIsSpace))
      (.seq (altList [wordOptS "year", wordOptS "month", wordOptS "week",
        wordOptS "day", wordOptS "hour"]) .wb))))

/-- Metric pattern 7: `\b(?:increased|decreased|reduced|improved|grew|boosted|cut|saved|generated)\s+(?:by\s+)?\d+` with `re.I`. -/
def METRIC7 : RE :=
  .seq .wb (.seq (altList [reLitCI (str "increased"), reLitCI (str "decreased"),
      reLitCI (str "reduced"), reLitCI (str "improved"), reLitCI (str "grew"),
      reLitCI (str "boosted"), reLitCI (str "cut"), reLitCI (str "saved"),
      reLitCI (str "generated")])
    (.seq reSpace1 (.seq (reOpt (.seq (reLitCI (str "by")) reSpace1)) reDigits)))

/-- Metric pattern 8: `\b\d{1,3}(?:,\d{3})+\b`. -/
def METRIC8 : RE :=
  .seq .wb (.seq (rep1To 3 (.cls Char.isDigit))
    (.seq (rePlus (.seq (.cls (fun c => c == ','))
      (.seq (.cls Char.isDigit) (.seq (.cls Char.isDigit) (.cls Char.isDigit))))) .wb))

/-- Metric pattern 9: `\b(?:top|bottom)\s+\d+[%]?\b` with `re.I`. -/
def METRIC9 : RE :=
  .seq .wb (.seq (.alt (reLitCI (str "top")) (reLitCI (str "bottom")))
    (.seq reSpace1 (.seq reDigits (.seq (reOpt (.cls (fun c => c == '%'))) .wb))))

/-- Metric pattern 10: `\b\d+\s*(?:to|[-–])\s*\d+\b`. -/
def METRIC10 : RE :=
  .seq .wb (.seq reDigits (.seq (.star (.cls pyIsSpace))
    (.seq (.alt (reLit (str "to")) (.cls (fun c => c == '-' || c == '–')))
      (.seq (.star (.cls pyIsSpace)) (.seq reDigits .wb)))))

/-- `METRIC_PATTERNS` from quantifier.py, in source order. -/
def METRIC_PATTERNS : List RE :=
  [METRIC1, METRIC2, METRIC3, METRIC4, METRIC5, METRIC6, METRIC7, METRIC8,
   METRIC9, METRIC10]

/-- The bullet-start class `[•\-\*•\d.)]` of quantifier.py. -/
def qBulletChar (c : Char) : Bool :=
  c == '•' || c == '-' || c == '*' || c.isDigit || c == '.' || c == ')'

/-- The bullet-line start test of `analyze_quantification`:
`re.match(r"^[•\-\*•\d.)]+\s+\S", stripped)`. -/
def QBULLET_RE : RE :=
  .seq (rePlus (.cls qBulletChar)) (.seq reSpace1 (.cls (fun c => !pyIsSpace c)))

/-- `_is_header_line`'s header word set from quantifier.py. -/
def headerWords : List Str :=
  (["summary", "skills", "experience", "education", "projects",
    "certifications", "achievements", "awards", "objective",
    "profile", "qualifications", "references", "interests"] : List String).map
    String.toList

/-- Python `str.isupper()`: at least one cased character, and all cased
characters uppercase (ASCII range). -/
def isUpperPy (s : Str) : Bool :=
  s.any (fun c => c.isAlpha) && s.all (fun c => !c.isAlpha || c.isUpper)

/-- Python `str.rstrip(":")`. -/
def rstripColon (s : Str) : Str := (s.reverse.dropWhile (fun c => c == ':')).reverse

/-- `_is_header_line` from quantifier.py. -/
def isHeaderLine (text : Str) : Bool :=
  let t := pyStrip text
  if 50 < t.length then false
  else if isUpperPy t && decide (t.length < 40) then true
  else headerWords.contains (rstripColon (pyLower t))

/-- The bullet-collecting loop of `analyze_quantification`: a stripped line
counts when it starts like a bullet, or is longer than 20 characters and not
a header line. -/
def qBulletLines (text : Str) : List Str :=
  (splitNl (pyStrip text)).filterMap (fun line =>
    let s := pyStrip line
    if pyMatch QBULLET_RE s then some s
    else if 20 < s.length && !isHeaderLine s then some s
    else none)

/-- Does a bullet contain any metric (the inner `for pattern in
METRIC_PATTERNS` loop with early break)? -/
def isQuantified (b : Str) : Bool := METRIC_PATTERNS.any (fun p => pySearch p b)

/-- `analyze_quantification` from quantifier.py, returning
(score, quantified_bullets, total_bullets). -/
def analyze_quantification (text : Str) : ℤ × Nat × Nat :=
  let bullets := qBulletLines text
  let total := bullets.length
  let quantified := (bullets.filter isQuantified).length
  let score : ℤ :=
    if total = 0 then 20
    else pyRound (min 100 ((quantified : ℚ) / (total : ℚ) * 150 + 10))
  (max 0 (min 100 score), quantified, total)

/-- `_rule_based_ats_score` from ats_scorer.py, as a function of the feature
vector produced by `extract_ats_features` and of the `keyword_density`
argument (the only inputs the fallback formula reads). -/
def rule_based_ats_score (f : Fin 20 → ℚ) (keyword_density : ℚ) : ℤ :=
  let score : ℚ :=
    f 0 * 8 + f 1 * 6 + f 2 * 4 + f 3 * 2
    + f 4 * 5
    + min keyword_density 1 * 25
    + min (f 9 * 2) 10
    + min (f 8 * 2) 10
    + f 12 * 2.5 + f 13 * 2.5
    + (if 3 ≤ f 7 ∧ f 7 ≤ 8 then 5
       else if 2 ≤ f 7 ∧ f 7 ≤ 10 then 3
       else 1)
  max 0 (min 100 (pyRound score))

/-- `GRADE_MAP` from config.py. -/
def GRADE_MAP : List (ℤ × String) :=
  [(95, "A+"), (90, "A"), (85, "A-"),
   (80, "B+"), (75, "B"), (70, "B-"),
   (65, "C+"), (60, "C"), (55, "C-"),
   (50, "D+"), (45, "D"), (0, "F")]

/-- The grade loop of `compute_grade`: first threshold the score meets wins,
with the initial value "F". -/
def gradeScan : List (ℤ × String) → ℤ → String
  | [], _ => "F"
  | (t, l) :: rest, n => if t ≤ n then l else gradeScan rest n

/-- The clamp applied to the numeric grade before the letter lookup:
`max(0, min(100, round(numeric)))`. -/
def clampNumeric (q : ℚ) : ℤ := max 0 (min 100 (pyRound q))

/-- The letter-grade mapping of `compute_grade` on the clamped integer
numeric score. -/
def compute_grade_letter (numeric : ℤ) : String := gradeScan GRADE_MAP numeric

/-- Dot product of embeddings (`np.dot` of normalized vectors). -/
def dotQ (a b : List ℚ) : ℚ := (a.zipWith (fun x y => x * y) b).sum

/-- `compute_semantic_similarity` from semantic.py, parameterized by the
embedding model `enc` (the lazily loaded Sentence-BERT encoder, opaque to
this development): empty (or whitespace-only) inputs short-circuit to 0
without consulting `enc`; otherwise the cosine of the two embeddings,
clamped into [0, 1]. -/
def compute_semantic_similarity (enc : Str → List ℚ) (a b : Str) : ℚ :=
  if (pyStrip a).isEmpty || (pyStrip b).isEmpty then 0
  else max 0 (min 1 (dotQ (enc a) (enc b)))

/-- `compute_keyword_semantic_matches` from semantic.py, parameterized by
the embedding model `enc`. -/
def compute_keyword_semantic_matches (enc : Str → List ℚ)
    (resume_text : Str) (jd_keywords : List Str) (threshold : ℚ) :
    List Str × List Str :=
  if jd_keywords.isEmpty || (pyStrip resume_text).isEmpty then ([], jd_keywords)
  else partitionFold (fun kw => decide (threshold ≤ dotQ (enc resume_text) (enc kw))) jd_keywords

/-- `STRONG_ACTION_VERBS` from section_scorer.py. -/
def STRONG_ACTION_VERBS : List Str :=
  (["achieved", "architected", "automated", "built", "championed", "coached",
    "consolidated", "created", "decreased", "delivered", "designed", "developed",
    "directed", "drove", "eliminated", "engineered", "established", "exceeded",
    "executed", "expanded", "generated", "grew", "headed", "implemented",
    "improved", "increased", "influenced", "initiated", "innovated", "integrated",
    "introduced", "launched", "led", "leveraged", "maximized", "mentored",
    "modernized", "negotiated", "optimized", "orchestrated", "overhauled",
    "partnered", "pioneered", "produced", "propelled", "raised", "redesigned",
    "reduced", "revamped", "scaled", "secured", "simplified", "spearheaded",
    "streamlined", "strengthened", "surpassed", "transformed", "unified"]
    : List String).map String.toList

/-- Split at every single whitespace character, keeping empty pieces. -/
def splitWsChar : Str → List Str
  | [] => [[]]
  | c :: cs =>
    if pyIsSpace c then [] :: splitWsChar cs
    else
      match splitWsChar cs with
      | h :: t => (c :: h) :: t
      | [] => [[c]]

/-- Python `str.split()` with no argument: whitespace-separated words,
empties dropped (splitting at every whitespace character and dropping the
empty pieces produced by runs and edges). -/
def pySplitWs (s : Str) : List Str := (splitWsChar s).filter (fun w => ¬ w.isEmpty)

/-- The leading junk class `[\s•\-\*•\d.)]` stripped from a line before the
first word is read in `extract_section_features`. -/
def sectionLeadChar (c : Char) : Bool := pyIsSpace c || qBulletChar c || c == '•'

/-- The per-line first word of the action-verb loop of
`extract_section_features`: strip the leading junk run (`re.sub` of the
anchored class), strip, take the first whitespace word lowered, or the empty
string. -/
def firstWordOf (line : Str) : Str :=
  match pySplitWs (pyStrip (line.dropWhile sectionLeadChar)) with
  | [] => []
  | w :: _ => pyLower w

/-- The action-verb counting loop of `extract_section_features`. -/
def sectionActionVerbCount (section_text : Str) : Nat :=
  ((splitNl (pyStrip section_text)).filter
    (fun line => STRONG_ACTION_VERBS.contains (firstWordOf line))).length

/-- The numbers pattern `\b\d+[%+,.]?\d*\b` of `extract_section_features`. -/
def SECTION_NUM_RE : RE :=
  .seq .wb (.seq reDigits
    (.seq (reOpt (.cls (fun c => c == '%' || c == '+' || c == ',' || c == '.')))
      (.seq (.star (.cls Char.isDigit)) .wb)))

/-- The section-specific optimal word-count bands of
`extract_section_features` (default (30, 300)). -/
def optimalLengths (name : String) : Nat × Nat :=
  if name = "summary" then (50, 150)
  else if name = "skills" then (30, 200)
  else if name = "experience" then (100, 600)
  else if name = "education" then (30, 200)
  else if name = "projects" then (50, 400)
  else (30, 300)

/-- `words = tokenize(section_text) if section_text else []` from
`extract_section_features`. -/
def sectionWords (section_text : Str) : List Str :=
  if section_text.isEmpty then [] else tokenize section_text

/-- The keyword-density feature of `extract_section_features`. -/
def sectionKwDensity (section_text jd_text : Str) : ℚ :=
  (compute_keyword_overlap section_text (extract_keywords jd_text 30)).2.2

/-- The bullet count of `extract_section_features`. -/
def sectionBullets (section_text : Str) : Nat :=
  if section_text.isEmpty then 0 else count_bullet_points section_text

/-- The numbers/metrics count of `extract_section_features`. -/
def sectionNumbers (section_text : Str) : Nat :=
  if section_text.isEmpty then 0 else (pyFindall SECTION_NUM_RE section_text).length

/-- The action-verb count of `extract_section_features`. -/
def sectionVerbs (section_text : Str) : Nat :=
  if section_text.isEmpty then 0 else sectionActionVerbCount section_text

/-- The semantic-similarity feature of `extract_section_features`: computed
from the model only when no similarity was passed in (`semantic_sim < 0`)
and both texts are non-empty. -/
def sectionSim (enc : Str → List ℚ) (section_text jd_text : Str)
    (semantic_sim : ℚ) : ℚ :=
  if semantic_sim < 0 then
    if ¬ section_text.isEmpty ∧ ¬ jd_text.isEmpty then
      compute_semantic_similarity enc section_text jd_text
    else 0
  else semantic_sim

/-- The length-appropriateness feature of `extract_section_features`. -/
def sectionLengthScore (section_name : String) (section_text : Str) : ℚ :=
  if (sectionWords section_text).length < (optimalLengths section_name).1 then
    max 0.1 (((sectionWords section_text).length : ℚ) / ((optimalLengths section_name).1 : ℚ))
  else if ((optimalLengths section_name).2 : ℚ) * 1.5 < ((sectionWords section_text).length : ℚ) then
    max 0.5 (((optimalLengths section_name).2 : ℚ) / ((sectionWords section_text).length : ℚ))
  else 1

/-- `extract_section_features` from section_scorer.py, parameterized by the
embedding model `enc`; returns the 12-dimensional feature vector, indexed
as the numpy array is. -/
def extract_section_features (enc : Str → List ℚ)
    (section_text jd_text : Str) (section_name : String) (semantic_sim : ℚ) :
    Nat → ℚ :=
  fun i =>
    if i = 0 then sectionSim enc section_text jd_text semantic_sim
    else if i = 1 then sectionKwDensity section_text jd_text
    else if i = 2 then min (((sectionWords section_text).length : ℚ) / 100) 10
    else if i = 3 then min ((sectionBullets section_text : ℚ) / 3) 5
    else if i = 4 then min ((sectionNumbers section_text : ℚ) / 3) 5
    else if i = 5 then min ((sectionVerbs section_text : ℚ) / 3) 5
    else if i = 6 then sectionLengthScore section_name section_text
    else if i = 7 then (if 0 < (sectionWords section_text).length then 1 else 0)
    else if i = 8 then (if section_name = "summary" then 1 else 0)
    else if i = 9 then (if section_name = "skills" then 1 else 0)
    else if i = 10 then (if section_name = "experience" then 1 else 0)
    else if i = 11 then (if section_name = "education" then 1 else 0)
    else 0

/-- `_rule_based_section_score` from section_scorer.py. -/
def rule_based_section_score (f : Nat → ℚ) (section_name : String) : ℚ :=
  let base := f 0 * 40
  let kw_score := f 1 * 25
  let struct_score : ℚ :=
    if section_name = "experience" then
      min (f 3 * 2) 8 + min (f 4 * 2) 6 + min (f 5 * 2) 6
    else if section_name = "skills" then
      min (f 2 * 2) 10 + f 1 * 10
    else if section_name = "summary" then
      min (f 6 * 10) 10 + min (f 5 * 2) 5 + min (f 4 * 2) 5
    else if section_name = "education" then
      min (f 2 * 3) 10 + min (f 4 * 2) 5 + 5
    else if section_name = "projects" then
      min (f 3 * 2) 6 + min (f 4 * 2) 6 + min (f 5 * 2) 8
    else
      min (f 2 * 2) 10 + min (f 6 * 5) 10
  let len_score := f 6 * 15
  max 5 (min 100 (base + kw_score + struct_score + len_score))

/-- `_generate_suggestion` from section_scorer.py. -/
def generate_suggestion (score : ℤ) (section_name : String) (f : Nat → ℚ) : Str :=
  if 80 ≤ score then
    str "Excellent " ++ str section_name ++ str " section — well-aligned with the job description."
  else
    let s1 := if f 0 < 0.4 then
      [str "Tailor your " ++ str section_name ++ str " more closely to the job description language"] else []
    let s2 := if f 1 < 0.3 then [str "incorporate more relevant keywords from the JD"] else []
    let s3 := if section_name = "experience" ∨ section_name = "projects" then
      (if f 3 < 1 then [str "use bullet points for each responsibility/achievement"] else []) ++
      (if f 4 < 1 then [str "quantify your achievements with specific metrics (%, $, numbers)"] else []) ++
      (if f 5 < 1 then [str "start bullet points with strong action verbs (Led, Architected, Optimized)"] else [])
      else []
    let s4 := if section_name = "summary" ∧ f 2 < 0.5 then
      [str "expand your summary to 3-4 sentences highlighting your key qualifications"] else []
    let s5 := if section_name = "skills" ∧ f 1 < 0.4 then
      [str "add technical skills mentioned in the job description"] else []
    let s6 := if f 6 < 0.5 then
      [str "adjust the length of your " ++ str section_name ++ str " section"] else []
    let suggestions := s1 ++ s2 ++ s3 ++ s4 ++ s5 ++ s6
    let suggestions := if suggestions.isEmpty then
      (if score < 50 then [str "significantly strengthen your " ++ str section_name ++ str " with more relevant content"]
       else [str "fine-tune your " ++ str section_name ++ str " by matching the JD's language more closely"])
      else suggestions
    let prefix' := if 50 ≤ score then str "Good start, but " else str "Needs work — "
    prefix' ++ List.intercalate (str "; ") suggestions ++ str "."

/-- `score_section` from section_scorer.py (rule-based path, the fallback
taken when no trained section model is loaded), parameterized by the
embedding model `enc`; returns (score, suggestion). -/
def score_section (enc : Str → List ℚ)
    (section_text jd_text : Str) (section_name : String) (semantic_sim : ℚ) :
    ℤ × Str :=
  if section_text.isEmpty || decide ((pyStrip section_text).length < 10) then
    (15, str "Your " ++ str section_name ++
      str " section is missing or too brief. Add detailed, relevant content aligned with the job description.")
  else
    let f := extract_section_features enc section_text jd_text section_name semantic_sim
    let score := max 5 (min 100 (pyRound (rule_based_section_score f section_name)))
    (score, generate_suggestion score section_name f)

/-- The bigram merge loop of `analyze_resume` in main.py: each job
description bigram is appended to the found list when it occurs in the
lowered resume (and is not already found), and to the missing list when it
does not occur (and is not already missing). -/
def bigramMergeStep (resume_lower : Str) (fm : List Str × List Str) (bg : Str) :
    List Str × List Str :=
  if pyContains resume_lower bg && !fm.1.contains bg then (fm.1 ++ [bg], fm.2)
  else if !pyContains resume_lower bg && !fm.2.contains bg then (fm.1, fm.2 ++ [bg])
  else fm

/-- The keyword part of `analyze_resume` in main.py, parameterized by the
embedding model `enc`: exact unigram overlap, bigram merge, semantic rescue
of missing keywords at threshold 0.55, dedup, and the final truncations;
returns the response's (found_keywords, missing_keywords). -/
def analyze_found_missing (enc : Str → List ℚ) (resume_text job_description : Str) :
    List Str × List Str :=
  let jd_keywords := extract_keywords job_description 40
  let jd_bigrams := extract_ngrams job_description 2 20
  let ov := compute_keyword_overlap resume_text jd_keywords
  let resume_lower := pyLower resume_text
  let em := jd_bigrams.foldl (bigramMergeStep resume_lower) (ov.1, ov.2.1)
  let sem := compute_keyword_semantic_matches enc resume_text em.2 0.55
  let all_found := (dedupFirst (em.1 ++ sem.1)).take 20
  let all_missing := (em.2.filter (fun kw => !sem.1.contains kw)).take 20
  (all_found.take 15, all_missing.take 15)
/-- Every match state splits the haystack: consumed ++ rest = input
(for `iterStar`, given that the step does). -/
theorem iterStar_consumes (step : Option Char → Str → List MState)
    (hstep : ∀ prev s t, t ∈ step prev s → t.1 ++ t.2.2 = s) :
    ∀ n prev s t, t ∈ iterStar step n prev s → t.1 ++ t.2.2 = s := by
  intro n
  induction n with
  | zero => intro prev s t ht; simp [iterStar] at ht; simp [ht]
  | succ n ih =>
    intro prev s t ht
    simp only [iterStar, List.mem_append, List.mem_flatMap, List.mem_filter,
      List.mem_map, List.mem_singleton] at ht
    rcases ht with ⟨a, ⟨ha, _⟩, u, hu, rfl⟩ | rfl
    · have h1 := hstep _ _ _ ha
      have h2 := ih _ _ _ hu
      simp only [List.append_assoc, h2, h1]
    · simp

/-- Every match state splits the haystack: consumed ++ rest = input. -/
theorem reMatch_consumes :
    ∀ (re : RE) (prev : Option Char) (s : Str) (t : MState),
      t ∈ reMatch re prev s → t.1 ++ t.2.2 = s := by
  intro re
  induction re with
  | cls p =>
    intro prev s t ht
    match s with
    | [] => simp [reMatch] at ht
    | c :: rest =>
      simp only [reMatch] at ht
      by_cases h : p c
      · simp [h] at ht; simp [ht]
      · simp [h] at ht
  | eps => intro prev s t ht; simp [reMatch] at ht; simp [ht]
  | seq a b iha ihb =>
    intro prev s t ht
    simp only [reMatch, List.mem_flatMap, List.mem_map] at ht
    rcases ht with ⟨u, hu, v, hv, rfl⟩
    have h1 := iha _ _ _ hu
    have h2 := ihb _ _ _ hv
    simp only [List.append_assoc, h2, h1]
  | alt a b iha ihb =>
    intro prev s t ht
    simp only [reMatch, List.mem_append] at ht
    rcases ht with h | h
    · exact iha _ _ _ h
    · exact ihb _ _ _ h
  | star r ihr =>
    intro prev s t ht
    exact iterStar_consumes (reMatch r) (fun p s' u hu => ihr p s' u hu) _ _ _ _ ht
  | wb =>
    intro prev s t ht
    simp only [reMatch] at ht
    by_cases h : wbHolds prev s.head?
    · simp [h] at ht; simp [ht]
    · simp [h] at ht
  | bos =>
    intro prev s t ht
    simp only [reMatch] at ht
    by_cases h : prev.isNone
    · simp [h] at ht; simp [ht]
    · simp [h] at ht
  | bol =>
    intro prev s t ht
    simp only [reMatch] at ht
    by_cases h : (prev.isNone || prev == some '\n') = true
    · simp [h] at ht; simp [ht]
    · simp [h] at ht


/-- The stripped non-blank lines of a stored section text, in order
(how a section's content decomposes back into lines). -/
def lineStrips (content : Str) : List Str :=
  ((splitNl content).map pyStrip).filter (fun l => ¬ l.isEmpty)

/-- All stripped non-blank lines of all sections, in section order. -/
def sectionLines (secs : List (String × Str)) : List Str :=
  secs.flatMap (fun p => lineStrips p.2)

/-- The stripped versions of the accumulated lines that a flush keeps. -/
def flushLines (acc : List Str) : List Str :=
  (acc.map pyStrip).filter (fun l => ¬ l.isEmpty)

/-- The section names triggered by the header lines of a line list, under a
header classifier. -/
def trigNames (hd : Str → Option String) (lines : List Str) : List String :=
  lines.filterMap (fun l =>
    if (pyStrip l).isEmpty then none else hd (pyStrip l))

/-- The stripped non-blank non-header lines of a line list, under a header
classifier. -/
def contentOf (hd : Str → Option String) (lines : List Str) : List Str :=
  lines.filterMap (fun l =>
    if (pyStrip l).isEmpty then none
    else match hd (pyStrip l) with
      | some _ => none
      | none => some (pyStrip l))

/-- The canonical section names triggered by the header lines of a
document, in order. -/
def triggeredNames (text : Str) : List String := trigNames hdrOf (splitNl text)

/-- The stripped non-blank content (non-header) lines of a document, in
order. -/
def contentLines (text : Str) : List Str := contentOf hdrOf (splitNl text)

/-- A concrete resume fixture with exactly ten bullet lines, of which
exactly five match a metric pattern. -/
def qResume : Str :=
  str "- Improved efficiency 3x over two quarters\n- Managed a team of 12 engineers\n- Delivered 4 projects ahead of schedule\n- Cut 30 hours of manual work monthly\n- Served over 1,000,000 users worldwide\n- Led the backend team and mentored juniors\n- Designed the core platform architecture\n- Built internal tooling for the data group\n- Wrote documentation for the public APIs\n- Organized weekly knowledge sharing sessions"

/-- `pyRound` rounds an integer to itself. -/
theorem pyRound_intCast (n : ℤ) : pyRound (n : ℚ) = n := by
  simp [pyRound]

/-- `pyRound` never rounds below the floor. -/
theorem floor_le_pyRound (q : ℚ) : ⌊q⌋ ≤ pyRound q := by
  unfold pyRound; split_ifs <;> omega

/-- `pyRound` never rounds above the floor plus one. -/
theorem pyRound_le_floor_add_one (q : ℚ) : pyRound q ≤ ⌊q⌋ + 1 := by
  unfold pyRound; split_ifs <;> omega

/-- `pyRound` is monotone (any round-half rule with these bounds is). -/
theorem pyRound_mono {q r : ℚ} (h : q ≤ r) : pyRound q ≤ pyRound r := by
  have hf : ⌊q⌋ ≤ ⌊r⌋ := Int.floor_mono h
  rcases lt_or_eq_of_le hf with hlt | heq
  · calc pyRound q ≤ ⌊q⌋ + 1 := pyRound_le_floor_add_one q
      _ ≤ ⌊r⌋ := by omega
      _ ≤ pyRound r := floor_le_pyRound r
  · unfold pyRound
    rw [heq]
    split_ifs <;> first | omega | linarith

/-- `pyRound` of a nonnegative rational is nonnegative. -/
theorem pyRound_nonneg {q : ℚ} (h : 0 ≤ q) : 0 ≤ pyRound q := by
  have := floor_le_pyRound q
  have h0 : (0 : ℤ) ≤ ⌊q⌋ := Int.floor_nonneg.mpr h
  omega

/-- `round(min(100, x))` equals `min(100, round(x))`. -/
theorem pyRound_min_100 (q : ℚ) : pyRound (min 100 q) = min 100 (pyRound q) := by
  have h100 : pyRound ((100 : ℚ)) = 100 := by
    have := pyRound_intCast 100; simpa using this
  rcases le_total q 100 with h | h
  · rw [min_eq_right h]
    have hle : pyRound q ≤ 100 := by
      have := pyRound_mono h; rw [h100] at this; exact this
    exact (min_eq_right hle).symm
  · rw [min_eq_left h, h100]
    have hge : 100 ≤ pyRound q := by
      have := pyRound_mono h; rw [h100] at this; exact this
    exact (min_eq_left hge).symm

/-- The two partitioning loops of the source append each keyword to exactly
one of the two lists: the fold is filter and counter-filter. -/
theorem partitionFold_eq (p : Str → Bool) (kws : List Str) :
    partitionFold p kws = (kws.filter p, kws.filter (fun k => !p k)) := by
  have h : ∀ (l : List Str) (f m : List Str),
      l.foldl (fun fm kw => if p kw then (fm.1 ++ [kw], fm.2) else (fm.1, fm.2 ++ [kw])) (f, m) =
        (f ++ l.filter p, m ++ l.filter (fun k => !p k)) := by
    intro l
    induction l with
    | nil => intro f m; simp
    | cons x xs ih =>
      intro f m
      by_cases hx : p x <;>
        simp [List.filter_cons, hx, ih, List.append_assoc]
  unfold partitionFold
  simpa using h kws [] []

/-- A successful lookup means membership (for the lowercase table). -/
theorem mem_of_lookup_eq_some :
    ∀ {l : List (Char × Char)} {a b : Char}, l.lookup a = some b → (a, b) ∈ l := by
  intro l
  induction l with
  | nil => intro a b h; simp [List.lookup] at h
  | cons pr t ih =>
    intro a b h
    obtain ⟨k, v⟩ := pr
    rw [List.lookup_cons] at h
    by_cases hk : (a == k) = true
    · have ha : a = k := eq_of_beq hk
      simp only [hk, if_pos] at h
      have hv : v = b := by
        simpa using h
      rw [ha, ← hv]
      exact List.mem_cons_self _ _
    · simp only [hk, if_neg, Bool.false_eq_true, not_false_iff, ite_false] at h
      exact List.mem_cons_of_mem _ (ih h)

/-- Lowercasing is idempotent. -/
theorem asciiLower_idem (c : Char) : asciiLower (asciiLower c) = asciiLower c := by
  unfold asciiLower
  cases h : lowerTable.lookup c with
  | none => rw [h]
  | some d =>
    have hd : (c, d) ∈ lowerTable := mem_of_lookup_eq_some h
    have hvals : lowerTable.all (fun pr => (lowerTable.lookup pr.2).isNone) = true := by decide
    rw [List.all_eq_true] at hvals
    have := hvals _ hd
    simp only [Option.isNone_iff_eq_none] at this
    rw [this]

/-- `pyLower` is idempotent. -/
theorem pyLower_idem (s : Str) : pyLower (pyLower s) = pyLower s := by
  unfold pyLower
  rw [List.map_map]
  exact List.map_congr_left (fun c _ => asciiLower_idem c)

/-- `splitNl` never returns an empty list of pieces. -/
theorem splitNl_ne_nil (s : Str) : splitNl s ≠ [] := by
  induction s with
  | nil => simp [splitNl]
  | cons c cs ih =>
    simp only [splitNl]
    by_cases hc : c = '\n'
    · simp [hc]
    · simp only [hc, if_false]
      cases h : splitNl cs with
      | nil => simp
      | cons h' t => simp

/-- The pieces of `splitNl` contain no newline. -/
theorem splitNl_no_nl (s : Str) : ∀ l ∈ splitNl s, '\n' ∉ l := by
  induction s with
  | nil => intro l hl; simp [splitNl] at hl; simp [hl]
  | cons c cs ih =>
    intro l hl
    simp only [splitNl] at hl
    by_cases hc : c = '\n'
    · simp only [hc, if_true] at hl
      rcases List.mem_cons.mp hl with h | h
      · simp [h]
      · exact ih l h
    · simp only [hc, if_false] at hl
      cases h : splitNl cs with
      | nil => exact absurd h (splitNl_ne_nil cs)
      | cons h' t =>
        rw [h] at hl
        simp only at hl
        rcases List.mem_cons.mp hl with h2 | h2
        · subst h2
          intro hmem
          rcases List.mem_cons.mp hmem with h3 | h3
          · exact hc h3.symm
          · exact ih h' (h ▸ List.mem_cons_self _ _) h3
        · exact ih l (h ▸ List.mem_cons_of_mem _ h2)

/-- A newline-free string splits into itself. -/
theorem splitNl_of_no_nl {s : Str} (h : '\n' ∉ s) : splitNl s = [s] := by
  induction s with
  | nil => simp [splitNl]
  | cons c cs ih =>
    have hc : c ≠ '\n' := fun hc => h (hc ▸ List.mem_cons_self _ _)
    have hcs : '\n' ∉ cs := fun hm => h (List.mem_cons_of_mem _ hm)
    simp only [splitNl, hc, if_false, ih hcs]

/-- Splitting after appending a newline-free piece through a newline. -/
theorem splitNl_append_cons_nl {x : Str} (hx : '\n' ∉ x) (rest : Str) :
    splitNl (x ++ '\n' :: rest) = x :: splitNl rest := by
  induction x with
  | nil => simp [splitNl]
  | cons c cs ih =>
    have hc : c ≠ '\n' := fun hc => hx (hc ▸ List.mem_cons_self _ _)
    have hcs : '\n' ∉ cs := fun hm => hx (List.mem_cons_of_mem _ hm)
    have h2 := ih hcs
    simp only [List.cons_append, splitNl, hc, if_false]
    rw [show cs.append ('\n' :: rest) = cs ++ '\n' :: rest from rfl, h2]

/-- `splitNl` inverts `joinNl` on nonempty lists of newline-free pieces. -/
theorem splitNl_joinNl :
    ∀ (ls : List Str), ls ≠ [] → (∀ l ∈ ls, '\n' ∉ l) →
      splitNl (joinNl ls) = ls := by
  intro ls
  induction ls with
  | nil => intro h; exact absurd rfl h
  | cons x t ih =>
    intro _ hnl
    cases t with
    | nil =>
      have hx : '\n' ∉ x := hnl x (List.mem_cons_self _ _)
      simp [joinNl, List.intercalate, splitNl_of_no_nl hx]
    | cons y t' =>
      have hx : '\n' ∉ x := hnl x (List.mem_cons_self _ _)
      have hrest : joinNl (x :: y :: t') = x ++ '\n' :: joinNl (y :: t') := by
        simp [joinNl, List.intercalate, List.intersperse]
      rw [hrest, splitNl_append_cons_nl hx]
      have := ih (by simp) (fun l hl => hnl l (List.mem_cons_of_mem _ hl))
      rw [this]

/-- Right strip, computed on a cons cell. -/
theorem pyRStrip_cons (c : Char) (cs : Str) :
    pyRStrip (c :: cs) =
      if pyRStrip cs = [] then (if pyIsSpace c then [] else [c])
      else c :: pyRStrip cs := by
  unfold pyRStrip
  rw [List.reverse_cons, List.dropWhile_append]
  by_cases h : List.dropWhile pyIsSpace cs.reverse = []
  · rw [if_pos (by simp [h]), if_pos (by simp [h])]
    by_cases hc : pyIsSpace c
    · rw [if_pos hc]
      simp [List.dropWhile, hc]
    · rw [if_neg hc]
      simp [List.dropWhile, hc]
  · rw [if_neg (by simpa using h), if_neg (by simpa using h)]
    rw [List.reverse_append]
    simp

/-- Left strip walks over a space. -/
theorem pyLStrip_cons_space {c : Char} (hc : pyIsSpace c) (cs : Str) :
    pyLStrip (c :: cs) = pyLStrip cs := by
  simp [pyLStrip, List.dropWhile, hc]

/-- Left strip stops at a non-space. -/
theorem pyLStrip_cons_nonspace {c : Char} (hc : ¬ pyIsSpace c) (cs : Str) :
    pyLStrip (c :: cs) = c :: cs := by
  simp [pyLStrip, List.dropWhile, hc]

/-- Left and right strips commute. -/
theorem pyLStrip_pyRStrip (l : Str) :
    pyLStrip (pyRStrip l) = pyRStrip (pyLStrip l) := by
  induction l with
  | nil => rfl
  | cons c cs ih =>
    by_cases hc : pyIsSpace c
    · by_cases h : pyRStrip cs = []
      · rw [pyLStrip_cons_space hc, ← ih, h, pyRStrip_cons, if_pos h, if_pos hc]
      · rw [pyLStrip_cons_space hc, ← ih, pyRStrip_cons, if_neg h]
        exact pyLStrip_cons_space hc _
    · rw [pyLStrip_cons_nonspace hc, pyRStrip_cons]
      by_cases h : pyRStrip cs = []
      · rw [if_pos h, if_neg hc]
        exact pyLStrip_cons_nonspace hc []
      · rw [if_neg h]
        exact pyLStrip_cons_nonspace hc _

/-- Dropping a leading space does not change the stripped lines. -/
theorem lineStrips_cons_space {c : Char} (hc : pyIsSpace c) (cs : Str) :
    lineStrips (c :: cs) = lineStrips cs := by
  unfold lineStrips
  by_cases hn : c = '\n'
  · simp only [splitNl, hn, if_true]
    simp [pyStrip, pyLStrip, pyRStrip]
  · simp only [splitNl, hn, if_false]
    cases h : splitNl cs with
    | nil => exact absurd h (splitNl_ne_nil cs)
    | cons h' t =>
      simp only [List.map_cons, List.filter_cons]
      have hstrip : pyStrip (c :: h') = pyStrip h' := by
        unfold pyStrip
        rw [pyLStrip_cons_space hc]
      rw [hstrip]

/-- Left-stripping does not change the stripped lines. -/
theorem lineStrips_pyLStrip (s : Str) : lineStrips (pyLStrip s) = lineStrips s := by
  induction s with
  | nil => rfl
  | cons c cs ih =>
    by_cases hc : pyIsSpace c
    · rw [pyLStrip_cons_space hc, ih, lineStrips_cons_space hc]
    · rw [pyLStrip_cons_nonspace hc]

/-- Right strip drops a trailing space. -/
theorem pyRStrip_append_space {c : Char} (hc : pyIsSpace c) (s : Str) :
    pyRStrip (s ++ [c]) = pyRStrip s := by
  unfold pyRStrip
  rw [List.reverse_append]
  simp [List.dropWhile, hc]

/-- Right strip stops at a trailing non-space. -/
theorem pyRStrip_append_nonspace {c : Char} (hc : ¬ pyIsSpace c) (s : Str) :
    pyRStrip (s ++ [c]) = s ++ [c] := by
  unfold pyRStrip
  rw [List.reverse_append]
  simp [List.dropWhile, hc]

/-- `strip` can be computed right strip first. -/
theorem pyStrip_eq_lstrip_rstrip (s : Str) : pyStrip s = pyLStrip (pyRStrip s) := by
  unfold pyStrip
  exact (pyLStrip_pyRStrip s).symm

/-- Stripping ignores a trailing space. -/
theorem pyStrip_append_space {c : Char} (hc : pyIsSpace c) (s : Str) :
    pyStrip (s ++ [c]) = pyStrip s := by
  rw [pyStrip_eq_lstrip_rstrip, pyStrip_eq_lstrip_rstrip s, pyRStrip_append_space hc]

/-- Splitting after a trailing newline adds one empty piece. -/
theorem splitNl_append_nl (s : Str) : splitNl (s ++ ['\n']) = splitNl s ++ [[]] := by
  induction s with
  | nil => simp [splitNl]
  | cons c cs ih =>
    by_cases hc : c = '\n'
    · simp only [List.cons_append, splitNl, hc, if_true]
      rw [show cs.append ['\n'] = cs ++ ['\n'] from rfl, ih]
    · simp only [List.cons_append, splitNl, hc, if_false]
      rw [show cs.append ['\n'] = cs ++ ['\n'] from rfl, ih]
      cases h : splitNl cs with
      | nil => exact absurd h (splitNl_ne_nil cs)
      | cons h' t => simp

/-- Splitting after a trailing non-newline extends the final piece. -/
theorem splitNl_snoc_exists {c : Char} (hc : c ≠ '\n') (s : Str) :
    ∃ ls last, splitNl s = ls ++ [last] ∧ splitNl (s ++ [c]) = ls ++ [last ++ [c]] := by
  induction s with
  | nil => exact ⟨[], [], by simp [splitNl], by simp [splitNl, hc]⟩
  | cons x xs ih =>
    obtain ⟨ls, last, h1, h2⟩ := ih
    by_cases hx : x = '\n'
    · refine ⟨[] :: ls, last, ?_, ?_⟩
      · simp only [splitNl, hx, if_true, h1]
        simp
      · simp only [List.cons_append, splitNl, hx, if_true]
        rw [show xs.append [c] = xs ++ [c] from rfl, h2]
    · cases ls with
      | nil =>
        refine ⟨[], x :: last, ?_, ?_⟩
        · simp only [splitNl, hx, if_false, h1]
          simp
        · simp only [List.cons_append, splitNl, hx, if_false]
          rw [show xs.append [c] = xs ++ [c] from rfl, h2]
          simp
      | cons l0 lrest =>
        refine ⟨(x :: l0) :: lrest, last, ?_, ?_⟩
        · simp only [splitNl, hx, if_false, h1]
          simp
        · simp only [List.cons_append, splitNl, hx, if_false]
          rw [show xs.append [c] = xs ++ [c] from rfl, h2]
          simp

/-- A trailing space does not change the stripped lines. -/
theorem lineStrips_append_space {c : Char} (hc : pyIsSpace c) (s : Str) :
    lineStrips (s ++ [c]) = lineStrips s := by
  by_cases hn : c = '\n'
  · unfold lineStrips
    rw [hn, splitNl_append_nl]
    simp [pyStrip, pyLStrip, pyRStrip]
  · obtain ⟨ls, last, h1, h2⟩ := splitNl_snoc_exists hn s
    unfold lineStrips
    rw [h1, h2]
    simp only [List.map_append, List.map_cons, List.map_nil, List.filter_append]
    rw [pyStrip_append_space hc]

/-- Right-stripping does not change the stripped lines. -/
theorem lineStrips_pyRStrip (s : Str) : lineStrips (pyRStrip s) = lineStrips s := by
  induction s using List.reverseRecOn with
  | nil => rfl
  | append_singleton xs c ih =>
    by_cases hc : pyIsSpace c
    · rw [pyRStrip_append_space hc, ih, lineStrips_append_space hc]
    · rw [pyRStrip_append_nonspace hc]

/-- Stripping the whole string does not change the stripped lines. -/
theorem lineStrips_pyStrip (s : Str) : lineStrips (pyStrip s) = lineStrips s := by
  unfold pyStrip
  rw [lineStrips_pyRStrip, lineStrips_pyLStrip]

/-- Flushed content decomposes into the stripped accumulated lines. -/
theorem lineStrips_flush_content (acc : List Str) (hnl : ∀ l ∈ acc, '\n' ∉ l) :
    lineStrips (pyStrip (joinNl acc)) = flushLines acc := by
  rw [lineStrips_pyStrip]
  cases acc with
  | nil =>
    simp [joinNl, List.intercalate, lineStrips, splitNl, flushLines, pyStrip,
      pyLStrip, pyRStrip]
  | cons x t =>
    unfold lineStrips
    rw [splitNl_joinNl (x :: t) (by simp) hnl]
    rfl

/-- Inserting a fresh key into a Python dict appends it. -/
theorem dictInsert_fresh :
    ∀ (secs : List (String × Str)) (k : String) (v : Str),
      k ∉ secs.map Prod.fst → dictInsert secs k v = secs ++ [(k, v)] := by
  intro secs
  induction secs with
  | nil => intro k v _; rfl
  | cons p t ih =>
    intro k v hk
    obtain ⟨k', v'⟩ := p
    simp only [List.map_cons, List.mem_cons] at hk
    push_neg at hk
    simp only [dictInsert]
    rw [if_neg (fun h => hk.1 h.symm), ih k v hk.2]
    simp

/-- The keys after an insertion are the old keys plus the inserted key. -/
theorem keys_dictInsert :
    ∀ (secs : List (String × Str)) (k : String) (v : Str) (k' : String),
      k' ∈ (dictInsert secs k v).map Prod.fst → k' ∈ secs.map Prod.fst ∨ k' = k := by
  intro secs
  induction secs with
  | nil => intro k v k' h; simp [dictInsert] at h; right; exact h
  | cons p t ih =>
    intro k v k' h
    obtain ⟨a, b⟩ := p
    simp only [dictInsert] at h
    by_cases hk : a = k
    · rw [if_pos hk] at h
      simp only [List.map_cons, List.mem_cons] at h ⊢
      tauto
    · rw [if_neg hk] at h
      simp only [List.map_cons, List.mem_cons] at h ⊢
      rcases h with h | h
      · left; left; exact h
      · rcases ih k v k' h with h2 | h2
        · left; right; exact h2
        · right; exact h2

/-- `sectionLines` distributes over append. -/
theorem sectionLines_append (a b : List (String × Str)) :
    sectionLines (a ++ b) = sectionLines a ++ sectionLines b := by
  simp [sectionLines]

/-- The lines of the sections after a flush. -/
theorem sectionLines_flushInto (secs : List (String × Str)) (cur : String)
    (acc : List Str) (hcur : cur ∉ secs.map Prod.fst)
    (hnl : ∀ l ∈ acc, '\n' ∉ l) :
    sectionLines (flushInto secs cur acc) = sectionLines secs ++ flushLines acc := by
  unfold flushInto
  by_cases h : (pyStrip (joinNl acc)).isEmpty
  · rw [if_pos h]
    have hls := lineStrips_flush_content acc hnl
    have hc : pyStrip (joinNl acc) = [] := by simpa using h
    rw [hc] at hls
    have hfl : flushLines acc = [] := by
      rw [← hls]
      simp [lineStrips, splitNl, pyStrip, pyLStrip, pyRStrip]
    rw [hfl]
    simp
  · rw [if_neg h, dictInsert_fresh _ _ _ hcur, sectionLines_append]
    have : sectionLines [(cur, pyStrip (joinNl acc))] = flushLines acc := by
      simp [sectionLines, lineStrips_flush_content acc hnl]
    rw [this]

/-- The keys after a flush are among the old keys plus the current name. -/
theorem keys_flushInto (secs : List (String × Str)) (cur : String)
    (acc : List Str) (k : String) :
    k ∈ (flushInto secs cur acc).map Prod.fst → k ∈ secs.map Prod.fst ∨ k = cur := by
  unfold flushInto
  by_cases h : (pyStrip (joinNl acc)).isEmpty
  · rw [if_pos h]; intro hk; left; exact hk
  · rw [if_neg h]; exact keys_dictInsert secs cur _ k

/-- A blank line contributes nothing to a flush. -/
theorem flushLines_append_blank (acc : List Str) :
    flushLines (acc ++ [[]]) = flushLines acc := by
  simp [flushLines, pyStrip, pyLStrip, pyRStrip]

/-- A content line contributes its stripped form to a flush. -/
theorem flushLines_append_line (acc : List Str) (line : Str)
    (h : ¬ (pyStrip line).isEmpty) :
    flushLines (acc ++ [line]) = flushLines acc ++ [pyStrip line] := by
  simp only [flushLines, List.map_append, List.map_cons, List.map_nil,
    List.filter_append]
  rw [List.filter_cons]
  simp [h]

/-- Main segmentation invariant: while no triggered section name repeats or
collides with an existing key, the stripped non-blank lines of the produced
sections are exactly the already-flushed lines followed by the stripped
non-blank content lines of the remaining input, in order. -/
theorem detectAux_lines (hd : Str → Option String) :
    ∀ (rest : List Str) (secs : List (String × Str)) (cur : String) (acc : List Str),
      (∀ l ∈ acc, '\n' ∉ l) →
      (∀ l ∈ rest, '\n' ∉ l) →
      cur ∉ secs.map Prod.fst →
      (trigNames hd rest).Nodup →
      (∀ n ∈ trigNames hd rest, n ∉ secs.map Prod.fst ∧ n ≠ cur) →
      sectionLines (detectAux hd secs cur acc rest) =
        sectionLines secs ++ flushLines acc ++ contentOf hd rest := by
  intro rest
  induction rest with
  | nil =>
    intro secs cur acc hnlacc _ hcur _ _
    simp only [detectAux, contentOf, List.filterMap_nil, List.append_nil]
    exact sectionLines_flushInto secs cur acc hcur hnlacc
  | cons line rest ih =>
    intro secs cur acc hnlacc hnlrest hcur hnodup hfresh
    have hnlline : '\n' ∉ line := hnlrest line (List.mem_cons_self _ _)
    have hnlrest' : ∀ l ∈ rest, '\n' ∉ l := fun l hl => hnlrest l (List.mem_cons_of_mem _ hl)
    by_cases hs : (pyStrip line).isEmpty
    · have hs' : pyStrip line = [] := by simpa using hs
      have ht : trigNames hd (line :: rest) = trigNames hd rest := by
        simp [trigNames, List.filterMap_cons, hs']
      have hc : contentOf hd (line :: rest) = contentOf hd rest := by
        simp [contentOf, List.filterMap_cons, hs']
      rw [ht] at hnodup hfresh
      have hmain := ih secs cur (acc ++ [[]])
        (by intro l hl
            rcases List.mem_append.mp hl with h | h
            · exact hnlacc l h
            · simp at h; simp [h])
        hnlrest' hcur hnodup hfresh
      simp only [detectAux, hs, if_true]
      rw [hmain, flushLines_append_blank, hc]
    · have hs' : ¬ (pyStrip line = []) := by simpa using hs
      cases hh : hd (pyStrip line) with
      | some name =>
        have ht : trigNames hd (line :: rest) = name :: trigNames hd rest := by
          simp [trigNames, List.filterMap_cons, hs', hh]
        have hc : contentOf hd (line :: rest) = contentOf hd rest := by
          simp [contentOf, List.filterMap_cons, hs', hh]
        rw [ht] at hnodup hfresh
        have hname := hfresh name (List.mem_cons_self _ _)
        have hnodup' := (List.nodup_cons.mp hnodup).2
        have hnotin := (List.nodup_cons.mp hnodup).1
        have hstep := ih (flushInto secs cur acc) name []
          (by intro l hl; simp at hl)
          hnlrest'
          (by intro hmem
              rcases keys_flushInto secs cur acc name hmem with h | h
              · exact hname.1 h
              · exact hname.2 h)
          hnodup'
          (by intro n hn
              have hfn := hfresh n (List.mem_cons_of_mem _ hn)
              constructor
              · intro hmem
                rcases keys_flushInto secs cur acc n hmem with h | h
                · exact hfn.1 h
                · exact hfn.2 h
              · intro he
                exact hnotin (he ▸ hn))
        simp only [detectAux, hs, hh, Bool.false_eq_true, if_false]
        rw [hstep, sectionLines_flushInto secs cur acc hcur hnlacc, hc]
        simp [flushLines, List.append_assoc]
      | none =>
        have ht : trigNames hd (line :: rest) = trigNames hd rest := by
          simp [trigNames, List.filterMap_cons, hs', hh]
        have hc : contentOf hd (line :: rest) = pyStrip line :: contentOf hd rest := by
          simp [contentOf, List.filterMap_cons, hs', hh]
        rw [ht] at hnodup hfresh
        have hmain := ih secs cur (acc ++ [line])
          (by intro l hl
              rcases List.mem_append.mp hl with h | h
              · exact hnlacc l h
              · simp at h
                subst h
                exact hnlline)
          hnlrest' hcur hnodup hfresh
        simp only [detectAux, hs, hh, Bool.false_eq_true, if_false]
        rw [hmain, flushLines_append_line acc line hs, hc]
        simp [List.append_assoc]

/-- A recognized header always maps to one of the pattern names. -/
theorem hdrOf_mem_names {s : Str} {n : String} (h : hdrOf s = some n) :
    n ∈ SECTION_PATTERNS.map Prod.snd := by
  unfold hdrOf at h
  by_cases hl : s.length < 60
  · rw [if_pos hl] at h
    obtain ⟨pr, hpr, hf⟩ := List.exists_of_findSome?_eq_some h
    by_cases hsearch : pySearch pr.1 s
    · rw [if_pos hsearch] at hf
      have : pr.2 = n := by simpa using hf
      exact this ▸ List.mem_map_of_mem Prod.snd hpr
    · rw [if_neg hsearch] at hf
      exact absurd hf (by simp)
  · rw [if_neg hl] at h
    exact absurd h (by simp)

/-- No section pattern is named "header". -/
theorem hdrOf_ne_header {s : Str} {n : String} (h : hdrOf s = some n) :
    n ≠ "header" := by
  intro he
  have := hdrOf_mem_names h
  rw [he] at this
  have hmem : "header" ∉ SECTION_PATTERNS.map Prod.snd := by decide
  exact hmem this

/-- C1 (amended): provided each canonical section name is triggered by at
most one header line of the document, every whitespace-stripped non-blank
line of the original document appears in exactly one section of the
SectionMap produced by `detect_sections` — concatenating the lines of all
section texts in document order reconstructs, in order, exactly the
document's stripped non-blank content lines, with header lines removed.
(When the same canonical name is triggered by more than one header line,
the dict assignment overwrites the earlier section's content, so this fails
— see the counterexample.) -/
theorem detect_sections_partition (text : Str)
    (h : (triggeredNames text).Nodup) :
    sectionLines (detect_sections text) = contentLines text := by
  have hnames : ∀ n ∈ trigNames hdrOf (splitNl text),
      n ∉ (([] : List (String × Str)).map Prod.fst) ∧ n ≠ "header" := by
    intro n hn
    refine ⟨by simp, ?_⟩
    unfold trigNames at hn
    obtain ⟨l, _, hf⟩ := List.mem_filterMap.mp hn
    by_cases he : (pyStrip l).isEmpty
    · rw [if_pos (by simpa using he)] at hf
      exact absurd hf (by simp)
    · rw [if_neg (by simpa using he)] at hf
      exact hdrOf_ne_header hf
  have := detectAux_lines hdrOf (splitNl text) [] "header" []
    (by intro l hl; simp at hl)
    (splitNl_no_nl text)
    (by simp)
    h
    hnames
  unfold detect_sections
  rw [this]
  unfold contentLines
  simp [sectionLines, flushLines]

/-- Witness for C1 (amended) on a concrete résumé with two distinct
headers. -/
theorem detect_sections_partition_witness :
    (triggeredNames (str "Summary\nAn experienced developer\nSkills\nPython and SQL")).Nodup ∧
      sectionLines (detect_sections (str "Summary\nAn experienced developer\nSkills\nPython and SQL")) =
        contentLines (str "Summary\nAn experienced developer\nSkills\nPython and SQL") :=
  ⟨by decide, detect_sections_partition _ (by decide)⟩

/-- C1 counterexample: when the same canonical section name ("skills") is
triggered by two header lines, the content accumulated under the first
header ("Python") is overwritten by the dict assignment and appears in no
section of the result, so a line of the document is lost. -/
theorem detect_sections_duplicate_header_loses_lines :
    detect_sections (str "Skills\nPython\nSkills\nJava") = [("skills", str "Java")] ∧
      str "Python" ∉ sectionLines (detect_sections (str "Skills\nPython\nSkills\nJava")) := by
  constructor
  · decide
  · decide

/-- C2: `compute_keyword_overlap` partitions the keyword sequence: `found`
followed by `missing` is a reordering of the input keyword sequence (and has
no duplicates when the input has none, so `found` and `missing` are
disjoint); membership in `found` is exactly case-insensitive substring
containment of the keyword in the resume text; and the density is exactly
`len(found)/len(keywords)`, with density 0 when the keyword sequence is
empty. -/
theorem compute_keyword_overlap_spec (resume_text : Str) (jd_keywords : List Str)
    (hnd : jd_keywords.Nodup) :
    ((compute_keyword_overlap resume_text jd_keywords).1 ++
        (compute_keyword_overlap resume_text jd_keywords).2.1).Perm jd_keywords ∧
    ((compute_keyword_overlap resume_text jd_keywords).1 ++
        (compute_keyword_overlap resume_text jd_keywords).2.1).Nodup ∧
    (∀ kw, kw ∈ (compute_keyword_overlap resume_text jd_keywords).1 ↔
        kw ∈ jd_keywords ∧ pyContains (pyLower resume_text) (pyLower kw)) ∧
    (∀ kw, kw ∈ (compute_keyword_overlap resume_text jd_keywords).2.1 ↔
        kw ∈ jd_keywords ∧ ¬ pyContains (pyLower resume_text) (pyLower kw)) ∧
    (jd_keywords = [] → (compute_keyword_overlap resume_text jd_keywords).2.2 = 0) ∧
    (jd_keywords ≠ [] →
      (compute_keyword_overlap resume_text jd_keywords).2.2 =
        ((compute_keyword_overlap resume_text jd_keywords).1.length : ℚ) /
          (jd_keywords.length : ℚ)) := by
  unfold compute_keyword_overlap
  rw [partitionFold_eq]
  refine ⟨List.filter_append_perm _ _, ?_, ?_, ?_, ?_, ?_⟩
  · exact ((List.filter_append_perm _ _).nodup_iff).mpr hnd
  · intro kw
    simp [List.mem_filter]
  · intro kw
    simp [List.mem_filter]
  · intro h
    simp [h]
  · intro h
    have hlen : 0 < jd_keywords.length := List.length_pos.mpr h
    have h1 : (1 : ℚ) ≤ (jd_keywords.length : ℚ) := by exact_mod_cast hlen
    rw [max_eq_left h1]

/-- Witness for C2 on a concrete resume and keyword list. -/
theorem compute_keyword_overlap_witness :
    ([str "python", str "java"].Nodup) ∧
    (((compute_keyword_overlap (str "We use Python daily") [str "python", str "java"]).1 ++
        (compute_keyword_overlap (str "We use Python daily") [str "python", str "java"]).2.1).Perm
      [str "python", str "java"]) :=
  ⟨by decide,
    (compute_keyword_overlap_spec (str "We use Python daily") [str "python", str "java"]
      (by decide)).1⟩


/-- A met threshold stops the grade scan (inclusive bound). -/
theorem gradeScan_cons_ge {t : ℤ} {l : String} {rest : List (ℤ × String)} {n : ℤ}
    (h : t ≤ n) : gradeScan ((t, l) :: rest) n = l := by
  simp only [gradeScan]
  rw [if_pos h]

/-- An unmet threshold passes the grade scan to the next entry. -/
theorem gradeScan_cons_lt {t : ℤ} {l : String} {rest : List (ℤ × String)} {n : ℤ}
    (h : n < t) : gradeScan ((t, l) :: rest) n = gradeScan rest n := by
  simp only [gradeScan]
  rw [if_neg (by omega)]

/-- C4: the grader's letter mapping scans the ordered threshold table from
highest to lowest and selects the first letter whose threshold the clamped
integer numeric score meets or exceeds (inclusive lower bounds): 95 maps to
"A+", 94 to "A", 44 to "F", and every band has an inclusive lower bound. -/
theorem compute_grade_letter_spec :
    compute_grade_letter 95 = "A+" ∧
    compute_grade_letter 94 = "A" ∧
    compute_grade_letter 44 = "F" ∧
    (∀ n : ℤ, 95 ≤ n → compute_grade_letter n = "A+") ∧
    (∀ n : ℤ, 90 ≤ n → n < 95 → compute_grade_letter n = "A") ∧
    (∀ n : ℤ, 85 ≤ n → n < 90 → compute_grade_letter n = "A-") ∧
    (∀ n : ℤ, 80 ≤ n → n < 85 → compute_grade_letter n = "B+") ∧
    (∀ n : ℤ, 75 ≤ n → n < 80 → compute_grade_letter n = "B") ∧
    (∀ n : ℤ, 70 ≤ n → n < 75 → compute_grade_letter n = "B-") ∧
    (∀ n : ℤ, 65 ≤ n → n < 70 → compute_grade_letter n = "C+") ∧
    (∀ n : ℤ, 60 ≤ n → n < 65 → compute_grade_letter n = "C") ∧
    (∀ n : ℤ, 55 ≤ n → n < 60 → compute_grade_letter n = "C-") ∧
    (∀ n : ℤ, 50 ≤ n → n < 55 → compute_grade_letter n = "D+") ∧
    (∀ n : ℤ, 45 ≤ n → n < 50 → compute_grade_letter n = "D") ∧
    (∀ n : ℤ, 0 ≤ n → n < 45 → compute_grade_letter n = "F") := by
  refine ⟨by decide, by decide, by decide, ?_, ?_, ?_, ?_, ?_, ?_, ?_, ?_, ?_, ?_, ?_, ?_⟩ <;>
    (intro n h1
     try intro h2) <;>
    unfold compute_grade_letter GRADE_MAP <;>
    (repeat first
      | rw [gradeScan_cons_ge (by omega)]
      | rw [gradeScan_cons_lt (by omega)])

/-- Witness for C4's banded characterization at 94. -/
theorem compute_grade_letter_witness :
    ((90 : ℤ) ≤ 94 ∧ (94 : ℤ) < 95) ∧ compute_grade_letter 94 = "A" :=
  ⟨⟨by decide, by decide⟩,
    compute_grade_letter_spec.2.2.2.2.1 94 (by decide) (by decide)⟩

/-- C3 (amended): the rule-based ATS fallback score is monotonically
non-decreasing in every feature it reads except the scaled word-count
feature (index 7): raising any combination of the contact-info flags,
section counts, keyword density, quantification, bullet and formatting
features while keeping the word-count feature fixed never lowers the score
(in particular, turning on an absent email flag never lowers it).  It is
not monotone in the scaled word-count feature itself, whose contribution is
a banded bonus — see the counterexample. -/
theorem rule_based_ats_score_mono (f g : Fin 20 → ℚ) (kd kd' : ℚ)
    (hfg : ∀ i, f i ≤ g i) (h7 : f 7 = g 7) (hkd : kd ≤ kd') :
    rule_based_ats_score f kd ≤ rule_based_ats_score g kd' := by
  unfold rule_based_ats_score
  have hband : (if 3 ≤ f 7 ∧ f 7 ≤ 8 then (5 : ℚ)
      else if 2 ≤ f 7 ∧ f 7 ≤ 10 then 3 else 1) =
      (if 3 ≤ g 7 ∧ g 7 ≤ 8 then (5 : ℚ)
      else if 2 ≤ g 7 ∧ g 7 ≤ 10 then 3 else 1) := by
    rw [h7]
  have hsum :
      f 0 * 8 + f 1 * 6 + f 2 * 4 + f 3 * 2 + f 4 * 5 + min kd 1 * 25 +
        min (f 9 * 2) 10 + min (f 8 * 2) 10 + f 12 * 2.5 + f 13 * 2.5 +
        (if 3 ≤ f 7 ∧ f 7 ≤ 8 then (5 : ℚ)
          else if 2 ≤ f 7 ∧ f 7 ≤ 10 then 3 else 1) ≤
      g 0 * 8 + g 1 * 6 + g 2 * 4 + g 3 * 2 + g 4 * 5 + min kd' 1 * 25 +
        min (g 9 * 2) 10 + min (g 8 * 2) 10 + g 12 * 2.5 + g 13 * 2.5 +
        (if 3 ≤ g 7 ∧ g 7 ≤ 8 then (5 : ℚ)
          else if 2 ≤ g 7 ∧ g 7 ≤ 10 then 3 else 1) := by
    rw [← hband]
    have m0 := hfg 0
    have m1 := hfg 1
    have m2 := hfg 2
    have m3 := hfg 3
    have m4 := hfg 4
    have m8 := hfg 8
    have m9 := hfg 9
    have m12 := hfg 12
    have m13 := hfg 13
    have hm9 : min (f 9 * 2) 10 ≤ min (g 9 * 2) 10 :=
      min_le_min (by linarith) le_rfl
    have hm8 : min (f 8 * 2) 10 ≤ min (g 8 * 2) 10 :=
      min_le_min (by linarith) le_rfl
    have hmk : min kd 1 * 25 ≤ min kd' 1 * 25 := by
      have := min_le_min hkd (le_refl (1 : ℚ))
      linarith
    have h25 : f 12 * 2.5 ≤ g 12 * 2.5 := by linarith
    have h25' : f 13 * 2.5 ≤ g 13 * 2.5 := by linarith
    linarith
  have hr := pyRound_mono hsum
  exact max_le_max (le_refl 0) (min_le_min (le_refl 100) hr)

/-- C3 counterexample: increasing only the scaled word-count feature
(index 7) from 8 to 9, all other features and the keyword density held at
zero, lowers the rule-based ATS score from 5 to 3 — the length bonus is a
band, not monotone. -/
theorem rule_based_ats_score_not_mono_in_word_count :
    (∀ i : Fin 20,
      (fun j => if j = (7 : Fin 20) then (8 : ℚ) else 0) i ≤
        (fun j => if j = (7 : Fin 20) then (9 : ℚ) else 0) i) ∧
    rule_based_ats_score (fun j => if j = (7 : Fin 20) then (8 : ℚ) else 0) 0 = 5 ∧
    rule_based_ats_score (fun j => if j = (7 : Fin 20) then (9 : ℚ) else 0) 0 = 3 := by
  refine ⟨?_, ?_, ?_⟩
  · intro i
    by_cases h : i = (7 : Fin 20) <;> simp [h] <;> norm_num
  · unfold rule_based_ats_score
    norm_num [pyRound,
      show ¬((0 : Fin 20) = 7) from by decide, show ¬((1 : Fin 20) = 7) from by decide,
      show ¬((2 : Fin 20) = 7) from by decide, show ¬((3 : Fin 20) = 7) from by decide,
      show ¬((4 : Fin 20) = 7) from by decide, show ¬((8 : Fin 20) = 7) from by decide,
      show ¬((9 : Fin 20) = 7) from by decide, show ¬((12 : Fin 20) = 7) from by decide,
      show ¬((13 : Fin 20) = 7) from by decide]
  · unfold rule_based_ats_score
    norm_num [pyRound,
      show ¬((0 : Fin 20) = 7) from by decide, show ¬((1 : Fin 20) = 7) from by decide,
      show ¬((2 : Fin 20) = 7) from by decide, show ¬((3 : Fin 20) = 7) from by decide,
      show ¬((4 : Fin 20) = 7) from by decide, show ¬((8 : Fin 20) = 7) from by decide,
      show ¬((9 : Fin 20) = 7) from by decide, show ¬((12 : Fin 20) = 7) from by decide,
      show ¬((13 : Fin 20) = 7) from by decide]

/-- Witness for C3's monotonicity: turning on the email flag (feature 0)
from the all-zero feature vector never lowers the rule-based ATS score. -/
theorem rule_based_ats_score_mono_witness :
    rule_based_ats_score (fun _ => 0) 0 ≤
      rule_based_ats_score (fun j => if j = (0 : Fin 20) then 1 else 0) 0 :=
  rule_based_ats_score_mono _ _ _ _
    (fun i => by
      by_cases h : i = (0 : Fin 20)
      · simp [h]
      · simp [h])
    (by norm_num [show ¬((7 : Fin 20) = 0) from by decide])
    le_rfl

/-- The blended readability formula is clamped into [0, 100] whenever the
length component is nonnegative. -/
theorem readability_blend_bounds (A B C : ℚ) (hC : 0 ≤ C) :
    0 ≤ min 100 ((pyRound (max 0 A * 0.4 + max 0 B * 0.3 + min 100 C * 0.3) : ℤ) : ℚ) ∧
    min 100 ((pyRound (max 0 A * 0.4 + max 0 B * 0.3 + min 100 C * 0.3) : ℤ) : ℚ) ≤ 100 := by
  constructor
  · refine le_min (by norm_num) (Int.cast_nonneg.mpr (pyRound_nonneg ?_))
    have a1 := le_max_left (0 : ℚ) A
    have a2 := le_max_left (0 : ℚ) B
    have a3 : (0 : ℚ) ≤ min 100 C := le_min (by norm_num) hC
    linarith
  · exact min_le_left _ _

/-- C9: `compute_readability` returns a value in [0, 100] for every input,
and on the empty string it returns exactly 50 (the neutral default). -/
theorem compute_readability_spec :
    (∀ text : Str, 0 ≤ compute_readability text ∧ compute_readability text ≤ 100) ∧
    compute_readability (str "") = 50 := by
  constructor
  · intro text
    simp only [compute_readability]
    split_ifs with hc h2
    · norm_num
    · exact readability_blend_bounds _ _ _ (by positivity)
    · exact readability_blend_bounds _ _ _ (by positivity)
  · unfold compute_readability
    rw [if_pos (by decide)]

/-- The embedding dot product is symmetric. -/
theorem dotQ_comm (u v : List ℚ) : dotQ u v = dotQ v u := by
  unfold dotQ
  rw [List.zipWith_comm_of_comm]
  intro x y
  ring

/-- C8: `compute_semantic_similarity` short-circuits to exactly 0 when
either text is empty or whitespace-only — for every embedding model `enc`,
so the model is never consulted there — and otherwise returns a value
clamped into [0, 1]; the result is symmetric in the two texts. -/
theorem compute_semantic_similarity_spec (enc : Str → List ℚ) (a b : Str) :
    (pyStrip a = [] ∨ pyStrip b = [] → compute_semantic_similarity enc a b = 0) ∧
    0 ≤ compute_semantic_similarity enc a b ∧
    compute_semantic_similarity enc a b ≤ 1 ∧
    compute_semantic_similarity enc a b = compute_semantic_similarity enc b a := by
  refine ⟨?_, ?_, ?_, ?_⟩
  · intro h
    unfold compute_semantic_similarity
    rw [if_pos (by rcases h with h | h <;> simp [h])]
  · unfold compute_semantic_similarity
    split_ifs
    · norm_num
    · exact le_max_left 0 _
  · unfold compute_semantic_similarity
    split_ifs
    · norm_num
    · exact max_le (by norm_num) (min_le_left _ _)
  · simp only [compute_semantic_similarity, dotQ_comm (enc a) (enc b), Bool.or_comm]

/-- Witness for C8's short-circuit at a concrete degenerate input. -/
theorem compute_semantic_similarity_witness :
    (pyStrip (str "") = [] ∨ pyStrip (str "hello") = []) ∧
    compute_semantic_similarity (fun _ => []) (str "") (str "hello") = 0 :=
  ⟨Or.inl (by decide),
    (compute_semantic_similarity_spec (fun _ => []) (str "") (str "hello")).1
      (Or.inl (by decide))⟩

/-- C5: the quantification analyzer returns score 20 when no bullets are
detected, and otherwise exactly `min(100, round(ratio * 150 + 10))` where
ratio is `quantified_bullets / total_bullets`; on the concrete resume with
10 bullets of which exactly 5 match a metric pattern it returns
`quantified_bullets = 5`, `total_bullets = 10`, score 85. -/
theorem analyze_quantification_spec :
    (∀ text : Str, (analyze_quantification text).2.2 = 0 →
      (analyze_quantification text).1 = 20) ∧
    (∀ text : Str, (analyze_quantification text).2.2 ≠ 0 →
      (analyze_quantification text).1 =
        min 100 (pyRound (((analyze_quantification text).2.1 : ℚ) /
          ((analyze_quantification text).2.2 : ℚ) * 150 + 10))) ∧
    analyze_quantification qResume = (85, 5, 10) := by
  refine ⟨?_, ?_, ?_⟩
  · intro text h
    simp only [analyze_quantification] at h ⊢
    rw [if_pos h]
    norm_num
  · intro text h
    simp only [analyze_quantification] at h ⊢
    rw [if_neg h]
    have h10 : (10 : ℚ) ≤ ((((qBulletLines text).filter isQuantified).length : ℚ) /
        ((qBulletLines text).length : ℚ) * 150 + 10) := by
      have : (0 : ℚ) ≤ (((qBulletLines text).filter isQuantified).length : ℚ) /
          ((qBulletLines text).length : ℚ) * 150 := by positivity
      linarith
    have hr : (10 : ℤ) ≤ pyRound ((((qBulletLines text).filter isQuantified).length : ℚ) /
        ((qBulletLines text).length : ℚ) * 150 + 10) := by
      have := pyRound_mono h10
      rwa [show pyRound ((10 : ℚ)) = 10 from by simpa using pyRound_intCast 10] at this
    rw [pyRound_min_100]
    omega
  · have h1 : (qBulletLines qResume).length = 10 := by decide
    have h2 : ((qBulletLines qResume).filter isQuantified).length = 5 := by decide
    simp only [analyze_quantification, h1, h2]
    norm_num [pyRound]

/-- Witness for C5's score formula at the concrete ten-bullet resume. -/
theorem analyze_quantification_witness :
    (analyze_quantification qResume).2.2 ≠ 0 ∧
    (analyze_quantification qResume).1 =
      min 100 (pyRound (((analyze_quantification qResume).2.1 : ℚ) /
        ((analyze_quantification qResume).2.2 : ℚ) * 150 + 10)) := by
  have h3 := analyze_quantification_spec.2.2
  have hne : (analyze_quantification qResume).2.2 ≠ 0 := by
    rw [h3]
    decide
  exact ⟨hne, analyze_quantification_spec.2.1 qResume hne⟩

/-- A class match consumes exactly one satisfying character. -/
theorem reMatch_cls_shape {p : Char → Bool} {prev : Option Char} {s : Str}
    {t : MState} (h : t ∈ reMatch (.cls p) prev s) :
    ∃ c rest, s = c :: rest ∧ p c ∧ t = ([c], some c, rest) := by
  match s with
  | [] => simp [reMatch] at h
  | c :: rest =>
    simp only [reMatch] at h
    by_cases hc : p c
    · rw [if_pos hc] at h
      simp at h
      exact ⟨c, rest, rfl, hc, h⟩
    · rw [if_neg hc] at h
      simp at h

/-- An assertion match consumes nothing. -/
theorem reMatch_wb_shape {prev : Option Char} {s : Str} {t : MState}
    (h : t ∈ reMatch .wb prev s) : t = ([], prev, s) := by
  simp only [reMatch] at h
  by_cases hc : wbHolds prev s.head?
  · rw [if_pos hc] at h; simpa using h
  · rw [if_neg hc] at h; simp at h

/-- A sequence match decomposes into its two parts. -/
theorem reMatch_seq_shape {a b : RE} {prev : Option Char} {s : Str} {t : MState}
    (h : t ∈ reMatch (.seq a b) prev s) :
    ∃ u ∈ reMatch a prev s, ∃ v ∈ reMatch b u.2.1 u.2.2,
      t = (u.1 ++ v.1, v.2.1, v.2.2) := by
  simp only [reMatch, List.mem_flatMap, List.mem_map] at h
  obtain ⟨u, hu, v, hv, rfl⟩ := h
  exact ⟨u, hu, v, hv, rfl⟩

/-- A bounded repetition of a class consumes at most `n` satisfying
characters. -/
theorem reMatch_repUpTo_cls {p : Char → Bool} :
    ∀ (n : Nat) (prev : Option Char) (s : Str) (t : MState),
      t ∈ reMatch (repUpTo n (.cls p)) prev s →
      t.1.length ≤ n ∧ ∀ c ∈ t.1, p c := by
  intro n
  induction n with
  | zero =>
    intro prev s t h
    simp only [repUpTo, reMatch, List.mem_singleton] at h
    subst h
    exact ⟨by simp, by simp⟩
  | succ n ih =>
    intro prev s t h
    simp only [repUpTo, reMatch, List.mem_append] at h
    rcases h with h | h
    · obtain ⟨u, hu, v, hv, rfl⟩ := reMatch_seq_shape h
      obtain ⟨c, rest, rfl, hc, rfl⟩ := reMatch_cls_shape hu
      obtain ⟨hlen, hall⟩ := ih _ _ _ hv
      constructor
      · simpa using Nat.succ_le_succ hlen
      · intro x hx
        rcases List.mem_cons.mp hx with rfl | hx
        · exact hc
        · exact hall x hx
    · simp only [List.mem_singleton] at h
      subst h
      exact ⟨by simp, by simp⟩

/-- Shape of a tokenizer match: one alphabetic character then 1 to 30
further token characters. -/
theorem reMatch_tokenRE_shape {prev : Option Char} {s : Str} {t : MState}
    (h : t ∈ reMatch tokenRE prev s) :
    ∃ c cs, t.1 = c :: cs ∧ Char.isAlpha c ∧ 1 ≤ cs.length ∧ cs.length ≤ 30 ∧
      ∀ x ∈ cs, tokChar x := by
  unfold tokenRE at h
  obtain ⟨u1, hu1, v1, hv1, rfl⟩ := reMatch_seq_shape h
  have hu1e := reMatch_wb_shape hu1
  subst hu1e
  obtain ⟨u2, hu2, v2, hv2, rfl⟩ := reMatch_seq_shape hv1
  obtain ⟨c, rest, rfl, hc, rfl⟩ := reMatch_cls_shape hu2
  obtain ⟨u3, hu3, v3, hv3, rfl⟩ := reMatch_seq_shape hv2
  have hv3e := reMatch_wb_shape hv3
  subst hv3e
  unfold rep1To at hu3
  obtain ⟨u4, hu4, v4, hv4, rfl⟩ := reMatch_seq_shape hu3
  obtain ⟨c2, rest2, heq, hc2, rfl⟩ := reMatch_cls_shape hu4
  obtain ⟨hlen, hall⟩ := reMatch_repUpTo_cls _ _ _ _ hv4
  refine ⟨c, c2 :: v4.1, by simp, hc, by simp, ?_, ?_⟩
  · simpa using Nat.succ_le_succ hlen
  · intro x hx
    rcases List.mem_cons.mp hx with rfl | hx
    · exact hc2
    · exact hall x hx

/-- Every string returned by `findallFrom` is the consumed part of some
engine match. -/
theorem findallFrom_shape (re : RE) :
    ∀ (fuel : Nat) (prev : Option Char) (s : Str) (tok : Str),
      tok ∈ findallFrom re fuel prev s →
      ∃ prev' s' t, t ∈ reMatch re prev' s' ∧ tok = t.1 := by
  intro fuel
  induction fuel with
  | zero => intro prev s tok h; simp [findallFrom] at h
  | succ fuel ih =>
    intro prev s tok h
    simp only [findallFrom] at h
    cases hm : (reMatch re prev s).head? with
    | some t =>
      rw [hm] at h
      have ht : t ∈ reMatch re prev s := List.mem_of_mem_head? hm
      dsimp only at h
      by_cases he : t.1.isEmpty
      · rw [if_pos he] at h
        cases s with
        | nil => simp at h
        | cons c rest => exact ih _ _ _ h
      · rw [if_neg he] at h
        rcases List.mem_cons.mp h with rfl | h2
        · exact ⟨prev, s, t, ht, rfl⟩
        · exact ih _ _ _ h2
    | none =>
      rw [hm] at h
      dsimp only at h
      cases s with
      | nil => simp at h
      | cons c rest => exact ih _ _ _ h

/-- Every character of every string returned by `findallFrom` is a
character of the haystack. -/
theorem findallFrom_chars (re : RE) :
    ∀ (fuel : Nat) (prev : Option Char) (s : Str) (tok : Str),
      tok ∈ findallFrom re fuel prev s → ∀ c ∈ tok, c ∈ s := by
  intro fuel
  induction fuel with
  | zero => intro prev s tok h; simp [findallFrom] at h
  | succ fuel ih =>
    intro prev s tok h
    simp only [findallFrom] at h
    cases hm : (reMatch re prev s).head? with
    | some t =>
      rw [hm] at h
      have ht : t ∈ reMatch re prev s := List.mem_of_mem_head? hm
      have hsplit := reMatch_consumes re prev s t ht
      dsimp only at h
      by_cases he : t.1.isEmpty
      · rw [if_pos he] at h
        cases s with
        | nil => simp at h
        | cons c rest =>
          intro c' hc'
          exact List.mem_cons_of_mem _ (ih _ _ _ h c' hc')
      · rw [if_neg he] at h
        intro c hc
        rcases List.mem_cons.mp h with rfl | h2
        · rw [← hsplit]
          exact List.mem_append_left _ hc
        · rw [← hsplit]
          exact List.mem_append_right _ (ih _ _ _ h2 c hc)
    | none =>
      rw [hm] at h
      dsimp only at h
      cases s with
      | nil => simp at h
      | cons c rest =>
        intro c' hc'
        exact List.mem_cons_of_mem _ (ih _ _ _ h c' hc')

/-- C6 (amended): `tokenize` lowercases the text and returns
word-boundary-delimited runs that start with an alphabetic character and
may contain internal '+', '#' or '.' characters, of total length between 2
and 31 (the regex `[a-zA-Z][a-zA-Z+#.]{1,30}` allows up to 31 characters,
not 30); "node.js" is preserved as a single token, but a trailing run of
'+' characters survives only when followed by another word character
(such as a digit), so a standalone "c++" is not preserved — see the
counterexample. -/
theorem tokenize_spec :
    (∀ (text tok : Str), tok ∈ tokenize text →
      2 ≤ tok.length ∧ tok.length ≤ 31 ∧
      (∃ c cs, tok = c :: cs ∧ Char.isAlpha c ∧ ∀ x ∈ cs, tokChar x) ∧
      pyLower tok = tok) ∧
    tokenize (str "node.js") = [str "node.js"] ∧
    tokenize (str "Uses NODE.JS and c++5 daily") =
      [str "uses", str "node.js", str "and", str "c++", str "daily"] := by
  refine ⟨?_, by decide, by decide⟩
  intro text tok h
  obtain ⟨prev', s', t, ht, rfl⟩ :=
    findallFrom_shape tokenRE _ _ _ _ h
  obtain ⟨c, cs, h1, hca, h2, h3, h4⟩ := reMatch_tokenRE_shape ht
  have hchars : ∀ ch ∈ t.1, ch ∈ pyLower text :=
    findallFrom_chars tokenRE _ _ _ _ h
  have hfix : ∀ ch ∈ t.1, asciiLower ch = ch := by
    intro ch hch
    obtain ⟨y, _, hy⟩ := List.mem_map.mp (hchars ch hch)
    rw [← hy]
    exact asciiLower_idem y
  refine ⟨?_, ?_, ⟨c, cs, h1, hca, h4⟩, ?_⟩
  · rw [h1]
    simpa using Nat.succ_le_succ h2
  · rw [h1]
    simpa using Nat.succ_le_succ h3
  · calc pyLower t.1 = t.1.map asciiLower := rfl
      _ = t.1.map id := List.map_congr_left hfix
      _ = t.1 := List.map_id t.1

/-- Witness for C6 (amended) at a concrete token. -/
theorem tokenize_spec_witness :
    (str "node.js" ∈ tokenize (str "node.js")) ∧
    (2 ≤ (str "node.js").length ∧ (str "node.js").length ≤ 31 ∧
      (∃ c cs, str "node.js" = c :: cs ∧ Char.isAlpha c ∧ ∀ x ∈ cs, tokChar x) ∧
      pyLower (str "node.js") = str "node.js") :=
  ⟨by decide, tokenize_spec.1 (str "node.js") (str "node.js") (by decide)⟩

/-- C6 counterexample: a standalone "c++" yields no token at all (the
trailing `\b` cannot match after '+'), and a 31-character run is returned
as a single token, so tokens are not limited to length 30. -/
theorem tokenize_counterexample :
    tokenize (str "c++") = [] ∧
    tokenize (str "abbbbbbbbbbbbbbbbbbbbbbbbbbbbbb") =
      [str "abbbbbbbbbbbbbbbbbbbbbbbbbbbbbb"] ∧
    (str "abbbbbbbbbbbbbbbbbbbbbbbbbbbbbb").length = 31 := by
  refine ⟨by decide, by decide, by decide⟩

/-- C7 (amended): `score_section` short-circuits exactly on a missing
section text or one whose whitespace-stripped text has length below 10
(total characters of the trimmed text, interior whitespace included — not
the count of non-whitespace characters): it then returns the fixed score 15
with the templated "add content" suggestion, and the result does not depend
on the embedding model, the job description, or the passed-in similarity —
no feature extraction is consulted. -/
theorem score_section_short_circuit (enc enc' : Str → List ℚ)
    (text jd jd' : Str) (name : String) (sim sim' : ℚ)
    (h : text = [] ∨ (pyStrip text).length < 10) :
    score_section enc text jd name sim =
      (15, str "Your " ++ str name ++
        str " section is missing or too brief. Add detailed, relevant content aligned with the job description.") ∧
    score_section enc text jd name sim = score_section enc' text jd' name sim' := by
  have hcond : (text.isEmpty || decide ((pyStrip text).length < 10)) = true := by
    rcases h with h | h
    · simp [h]
    · simp [h]
  constructor
  · unfold score_section
    rw [if_pos hcond]
  · unfold score_section
    rw [if_pos hcond, if_pos hcond]

/-- Witness for C7 (amended) on a concrete short section text. -/
theorem score_section_short_circuit_witness :
    (str "tiny" = [] ∨ (pyStrip (str "tiny")).length < 10) ∧
    score_section (fun _ => []) (str "tiny") (str "needs python") "skills" (-1) =
      (15, str "Your " ++ str "skills" ++
        str " section is missing or too brief. Add detailed, relevant content aligned with the job description.") :=
  ⟨Or.inr (by decide),
    (score_section_short_circuit (fun _ => []) (fun _ => [])
      (str "tiny") (str "needs python") (str "") "skills" (-1) 0
      (Or.inr (by decide))).1⟩

/-- C7 counterexample: the text "a b c d e f" has only 6 non-whitespace
characters, yet `score_section` does not short-circuit to 15 on it — its
stripped length is 11, so the feature-extraction branch runs and (with an
empty job description and the rule-based path) returns score 5, not the
fixed 15. -/
theorem score_section_nonwhitespace_counterexample :
    ((str "a b c d e f").filter (fun c => ¬ pyIsSpace c)).length = 6 ∧
    (pyStrip (str "a b c d e f")).length = 11 ∧
    (score_section (fun _ => []) (str "a b c d e f") (str "") "summary" (-1)).1 = 5 := by
  refine ⟨by decide, by decide, ?_⟩
  have hwords : sectionWords (str "a b c d e f") = [] := by decide
  have hbul : sectionBullets (str "a b c d e f") = 0 := by decide
  have hnum : sectionNumbers (str "a b c d e f") = 0 := by decide
  have hverbs : sectionVerbs (str "a b c d e f") = 0 := by decide
  have hkw : extract_keywords (str "") 30 = [] := by decide
  have hje : (str "").isEmpty = true := by decide
  have hden : sectionKwDensity (str "a b c d e f") (str "") = 0 := by
    unfold sectionKwDensity
    rw [hkw]
    simp [compute_keyword_overlap, partitionFold]
  have hsim : sectionSim (fun _ => []) (str "a b c d e f") (str "") (-1) = 0 := by
    unfold sectionSim
    rw [if_pos (by norm_num), if_neg (by simp [hje])]
  have hlen : sectionLengthScore "summary" (str "a b c d e f") = 0.1 := by
    unfold sectionLengthScore
    rw [hwords]
    norm_num [optimalLengths]
  have hrb : rule_based_section_score
      (extract_section_features (fun _ => []) (str "a b c d e f") (str "") "summary" (-1))
      "summary" = 5 := by
    simp only [rule_based_section_score, extract_section_features, hwords, hbul, hnum,
      hverbs, hden, hsim, hlen,
      show ¬("summary" = "experience") from by decide,
      show ¬("summary" = "skills") from by decide]
    norm_num
  have hcond : ((str "a b c d e f").isEmpty ||
      decide ((pyStrip (str "a b c d e f")).length < 10)) = false := by decide
  simp only [score_section, hcond, Bool.false_eq_true, if_false, hrb]
  norm_num [pyRound]

/-- Everything `dedupFirstAux` returns comes from its input list. -/
theorem mem_dedupFirstAux :
    ∀ (l seen : List Str) (x : Str), x ∈ dedupFirstAux seen l → x ∈ l := by
  intro l
  induction l with
  | nil => intro seen x h; simp [dedupFirstAux] at h
  | cons y ys ih =>
    intro seen x h
    simp only [dedupFirstAux] at h
    by_cases hc : seen.contains y
    · rw [if_pos hc] at h
      exact List.mem_cons_of_mem _ (ih _ _ h)
    · rw [if_neg hc] at h
      rcases List.mem_cons.mp h with rfl | h2
      · exact List.mem_cons_self _ _
      · exact List.mem_cons_of_mem _ (ih _ _ h2)

/-- Everything `insertByCount` returns is the inserted element or comes
from the list. -/
theorem mem_insertByCount :
    ∀ (l : List Str) (counts : Str → Nat) (y x : Str),
      x ∈ insertByCount counts y l → x = y ∨ x ∈ l := by
  intro l
  induction l with
  | nil => intro counts y x h; simp [insertByCount] at h; left; exact h
  | cons z zs ih =>
    intro counts y x h
    simp only [insertByCount] at h
    by_cases hc : counts y ≤ counts z
    · rw [if_pos hc] at h
      rcases List.mem_cons.mp h with rfl | h2
      · right; exact List.mem_cons_self _ _
      · rcases ih counts y x h2 with h3 | h3
        · left; exact h3
        · right; exact List.mem_cons_of_mem _ h3
    · rw [if_neg hc] at h
      rcases List.mem_cons.mp h with rfl | h2
      · left; rfl
      · right; exact h2

/-- Everything the counting insertion sort returns comes from the
accumulator or the input. -/
theorem mem_sortFold :
    ∀ (l acc : List Str) (counts : Str → Nat) (x : Str),
      x ∈ l.foldl (fun a y => insertByCount counts y a) acc → x ∈ acc ∨ x ∈ l := by
  intro l
  induction l with
  | nil => intro acc counts x h; simp at h; left; exact h
  | cons y ys ih =>
    intro acc counts x h
    simp only [List.foldl_cons] at h
    rcases ih _ _ _ h with h2 | h2
    · rcases mem_insertByCount _ _ _ _ h2 with rfl | h3
      · right; exact List.mem_cons_self _ _
      · left; exact h3
    · right; exact List.mem_cons_of_mem _ h2

/-- Everything `most_common` returns comes from the input list. -/
theorem mem_most_common {l : List Str} {n : Nat} {x : Str}
    (h : x ∈ most_common l n) : x ∈ l := by
  unfold most_common at h
  have h2 := List.mem_of_mem_take h
  rcases mem_sortFold _ _ _ _ h2 with h3 | h3
  · simp at h3
  · exact mem_dedupFirstAux _ _ _ h3

/-- Every character of an intercalation is a separator character or a
character of one of the pieces. -/
theorem chars_intercalate :
    ∀ (ls : List Str) (sep : Str) (c : Char),
      c ∈ List.intercalate sep ls → c ∈ sep ∨ ∃ l ∈ ls, c ∈ l := by
  intro ls
  induction ls with
  | nil => intro sep c h; simp [List.intercalate, List.intersperse] at h
  | cons x t ih =>
    intro sep c h
    cases t with
    | nil =>
      simp only [List.intercalate, List.intersperse, List.flatten] at h
      right
      exact ⟨x, List.mem_cons_self _ _, by simpa using h⟩
    | cons y t' =>
      have hx : List.intercalate sep (x :: y :: t') = x ++ sep ++ List.intercalate sep (y :: t') := by
        simp [List.intercalate, List.intersperse]
      rw [hx] at h
      rcases List.mem_append.mp h with h2 | h2
      · rcases List.mem_append.mp h2 with h3 | h3
        · right; exact ⟨x, List.mem_cons_self _ _, h3⟩
        · left; exact h3
      · rcases ih sep c h2 with h3 | ⟨l, hl, hcl⟩
        · left; exact h3
        · right; exact ⟨l, List.mem_cons_of_mem _ hl, hcl⟩

/-- Every character of every token of `tokenize` is fixed by lowering. -/
theorem tokenize_chars_fixed {text tok : Str} (h : tok ∈ tokenize text) :
    ∀ c ∈ tok, asciiLower c = c := by
  intro c hc
  have := findallFrom_chars tokenRE _ _ _ _ h c hc
  obtain ⟨y, _, hy⟩ := List.mem_map.mp this
  rw [← hy]
  exact asciiLower_idem y

/-- Bigrams produced by `extract_ngrams` are fixed by lowering (they are
space-joined lowered tokens). -/
theorem extract_ngrams_lower_fixed {text : Str} {n top_k : Nat} {bg : Str}
    (h : bg ∈ extract_ngrams text n top_k) : pyLower bg = bg := by
  unfold extract_ngrams at h
  have h2 := mem_most_common h
  have h3 : ∃ i, List.intercalate [' '] (((kwFilter (tokenize text)).drop i).take n) = bg := by
    obtain ⟨i, _, hbg⟩ := by simpa using h2
    exact ⟨i, hbg⟩
  obtain ⟨i, hbg⟩ := h3
  have hfix : ∀ c ∈ bg, asciiLower c = c := by
    intro c hc
    rw [← hbg] at hc
    rcases chars_intercalate _ _ _ hc with hsep | ⟨w, hw, hcw⟩
    · simp at hsep
      rw [hsep]
      decide
    · have hwtok : w ∈ tokenize text := by
        have := List.mem_of_mem_drop (List.mem_of_mem_take hw)
        exact List.mem_of_mem_filter this
      exact tokenize_chars_fixed hwtok c hcw
  calc pyLower bg = bg.map asciiLower := rfl
    _ = bg.map id := List.map_congr_left hfix
    _ = bg := List.map_id bg

/-- The bigram merge loop preserves the invariant that every entry of the
found list occurs (lowered) in the lowered resume and every entry of the
missing list does not — provided the bigrams are fixed by lowering, as the
produced ones are. -/
theorem bigramMerge_invariant (resume_lower : Str) :
    ∀ (bgs : List Str) (fm : List Str × List Str),
      (∀ bg ∈ bgs, pyLower bg = bg) →
      (∀ x ∈ fm.1, pyContains resume_lower (pyLower x) = true) →
      (∀ x ∈ fm.2, ¬ pyContains resume_lower (pyLower x) = true) →
      (∀ x ∈ (bgs.foldl (bigramMergeStep resume_lower) fm).1,
          pyContains resume_lower (pyLower x) = true) ∧
      (∀ x ∈ (bgs.foldl (bigramMergeStep resume_lower) fm).2,
          ¬ pyContains resume_lower (pyLower x) = true) := by
  intro bgs
  induction bgs with
  | nil => intro fm _ h1 h2; exact ⟨h1, h2⟩
  | cons bg rest ih =>
    intro fm hfix h1 h2
    have hbg : pyLower bg = bg := hfix bg (List.mem_cons_self _ _)
    have hfix' : ∀ b ∈ rest, pyLower b = b := fun b hb => hfix b (List.mem_cons_of_mem _ hb)
    simp only [List.foldl_cons]
    apply ih _ hfix'
    · intro x hx
      unfold bigramMergeStep at hx
      split_ifs at hx with hc1 hc2
      · rcases List.mem_append.mp hx with h3 | h3
        · exact h1 x h3
        · simp at h3
          subst h3
          rw [hbg]
          exact (Bool.and_eq_true _ _).mp hc1 |>.1
      · exact h1 x hx
      · exact h1 x hx
    · intro x hx
      unfold bigramMergeStep at hx
      split_ifs at hx with hc1 hc2
      · exact h2 x hx
      · rcases List.mem_append.mp hx with h3 | h3
        · exact h2 x h3
        · simp at h3
          subst h3
          rw [hbg]
          have := (Bool.and_eq_true _ _).mp hc2 |>.1
          simp at this
          simp [this]
      · exact h2 x hx

/-- Core disjointness of the final keyword lists: dedup and truncation of
found entries (exact or semantic) cannot meet the filtered missing list. -/
theorem foundMissing_disjoint (F M sem1 : List Str) (p : Str → Bool)
    (hF : ∀ x ∈ F, p x = true) (hM : ∀ x ∈ M, ¬ p x = true) :
    ∀ kw, kw ∈ ((dedupFirst (F ++ sem1)).take 20).take 15 →
      kw ∈ ((M.filter (fun k => !sem1.contains k)).take 20).take 15 → False := by
  intro kw hf hm
  have hf2 : kw ∈ F ++ sem1 := by
    have := List.mem_of_mem_take (List.mem_of_mem_take hf)
    exact mem_dedupFirstAux _ _ _ this
  have hm2 : kw ∈ M.filter (fun k => !sem1.contains k) :=
    List.mem_of_mem_take (List.mem_of_mem_take hm)
  obtain ⟨hmM, hnc⟩ := List.mem_filter.mp hm2
  rcases List.mem_append.mp hf2 with h | h
  · exact hM kw hmM (hF kw h)
  · have : sem1.contains kw = true := List.elem_eq_true_of_mem h
    rw [this] at hnc
    simp at hnc

/-- C10: in the result of the analyze entry point's keyword pipeline, the
found and missing keyword lists are disjoint for every embedding model,
resume and job description: every keyword matched exactly (including merged
job-description bigrams) or matched semantically above the threshold is
removed from the missing list before truncation, so no keyword appears in
both output lists. -/
theorem analyze_found_missing_disjoint (enc : Str → List ℚ) (resume jd : Str) :
    List.Disjoint (analyze_found_missing enc resume jd).1
      (analyze_found_missing enc resume jd).2 := by
  have hov1 : ∀ x ∈ (compute_keyword_overlap resume (extract_keywords jd 40)).1,
      pyContains (pyLower resume) (pyLower x) = true := by
    intro x hx
    unfold compute_keyword_overlap at hx
    rw [partitionFold_eq] at hx
    exact (List.mem_filter.mp hx).2
  have hov2 : ∀ x ∈ (compute_keyword_overlap resume (extract_keywords jd 40)).2.1,
      ¬ pyContains (pyLower resume) (pyLower x) = true := by
    intro x hx
    unfold compute_keyword_overlap at hx
    rw [partitionFold_eq] at hx
    have := (List.mem_filter.mp hx).2
    simp at this
    simp [this]
  have hinv := bigramMerge_invariant (pyLower resume) (extract_ngrams jd 2 20)
    ((compute_keyword_overlap resume (extract_keywords jd 40)).1,
      (compute_keyword_overlap resume (extract_keywords jd 40)).2.1)
    (fun bg hbg => extract_ngrams_lower_fixed hbg) hov1 hov2
  intro kw hf hm
  simp only [analyze_found_missing] at hf hm
  exact foundMissing_disjoint _ _ _ _ hinv.1 hinv.2 kw hf hm

/-- Witness for C10 at a concrete model, resume and job description. -/
theorem analyze_found_missing_disjoint_witness :
    List.Disjoint
      (analyze_found_missing (fun _ => []) (str "Python developer with SQL")
        (str "Need Python and SQL and leadership")).1
      (analyze_found_missing (fun _ => []) (str "Python developer with SQL")
        (str "Need Python and SQL and leadership")).2 :=
  analyze_found_missing_disjoint (fun _ => []) (str "Python developer with SQL")
    (str "Need Python and SQL and leadership")
